import Mathlib

set_option linter.unusedVariables false
set_option linter.unnecessarySeqFocus false

/-!
Shallow embedding of the QBDI `VM` layer (`src/Engine/VM.cpp`) and of the
`BreakToHost` patch generator (`src/Patch/X86_64/InstrRules_X86_64.cpp`),
together with proofs of the specified properties of callback registration,
the memory-access gates, the id space, and the memory-access queries.

Parts of the repository that the claims depend on but whose sources are not
present (QBDI/Errors.h, QBDI/Range.h, Engine/Engine.cpp, ExecBlock/*,
Patch/MemoryAccess.cpp) are modelled from the specification; each such
definition carries a doc comment saying so.
-/

namespace QBDIModel

/-- VMAction values returned by user callbacks; numeric severities are
CONTINUE = 0, BREAK_TO_VM = 1, STOP = 2 (specification §6). -/
inductive VMAction where
  | CONTINUE
  | BREAK_TO_VM
  | STOP
deriving DecidableEq, Repr

/-- Numeric value of a `VMAction` used by the `>` comparison in VM.cpp. -/
def VMAction.toNat : VMAction → Nat
  | .CONTINUE => 0
  | .BREAK_TO_VM => 1
  | .STOP => 2

/-- The update `if (ret > action) action = ret;` of the gate loops in VM.cpp. -/
def VMAction.merge (action ret : VMAction) : VMAction :=
  if action.toNat < ret.toNat then ret else action

/-- MemoryAccessType flag MEMORY_READ (QBDI/Callback.h). -/
def MEMORY_READ : Nat := 1

/-- MemoryAccessType flag MEMORY_WRITE (QBDI/Callback.h). -/
def MEMORY_WRITE : Nat := 2

/-- MemoryAccessType flag MEMORY_READ_WRITE = MEMORY_READ | MEMORY_WRITE. -/
def MEMORY_READ_WRITE : Nat := 3

/-- Modelled from the spec: the failure sentinel `VMError::INVALID_EVENTID`
(QBDI/Errors.h is not under src/); it is the all-ones 32-bit id, outside both
the engine id space (MSB clear) and the virtual id space described in §3. -/
def INVALID_EVENTID : Nat := 4294967295

/-- Mask to identify Virtual Callback events: `1UL << 31` (VM.cpp line 34). -/
def EVENTID_VIRTCB_MASK : Nat := 2147483648

/-- Half-open address interval. Modelled from the spec (QBDI/Range.h is not
under src/): `Range`/`RangeSet` give the half-open interval algebra of §2/C1.
The field `stop` renders the C++ field `end` (a Lean keyword). -/
structure Range where
  start : Nat
  stop : Nat
deriving DecidableEq, Repr

/-- Modelled from the spec: two half-open intervals overlap when their
intersection contains a point. -/
def Range.overlaps (a b : Range) : Bool :=
  max a.start b.start < min a.stop b.stop

/-- Modelled from the spec: a `RangeSet` is kept as the list of ranges added
to it; overlap against the set is overlap against some member, which agrees
with the overlap test on the canonical merged form because the point set is
the union of the members. -/
abbrev RangeSet := List Range

def RangeSet.empty : RangeSet := []

def RangeSet.add (s : RangeSet) (r : Range) : RangeSet := r :: s

def RangeSet.overlaps (s : RangeSet) (r : Range) : Bool :=
  s.any (fun x => x.overlaps r)

/-- One recorded memory access (QBDI/Callback.h); only the fields the gates
consult are kept: `type`, `accessAddress`, `size`. -/
structure MemoryAccess where
  type : Nat
  accessAddress : Nat
  size : Nat
deriving DecidableEq, Repr

/-- `MemCBInfo` from VM.cpp: a registered memory-range callback. The callback
payload is a type parameter: the gate algorithms use the `VMAction` the user
callback returns, the registration tables store a symbolic callback value. -/
structure MemCBInfo (κ : Type) where
  type : Nat
  range : Range
  cbk : κ
deriving DecidableEq, Repr

/-- The read `RangeSet` built at the top of `memReadGate` and `memWriteGate`:
one range per access whose type has MEMORY_READ. -/
def readRangesOf (memAccesses : List MemoryAccess) : RangeSet :=
  memAccesses.foldl
    (fun s a =>
      if a.type &&& MEMORY_READ ≠ 0 then
        RangeSet.add s ⟨a.accessAddress, a.accessAddress + a.size⟩
      else s)
    RangeSet.empty

/-- The write `RangeSet` built by `memWriteGate`. -/
def writeRangesOf (memAccesses : List MemoryAccess) : RangeSet :=
  memAccesses.foldl
    (fun s a =>
      if a.type &&& MEMORY_WRITE ≠ 0 then
        RangeSet.add s ⟨a.accessAddress, a.accessAddress + a.size⟩
      else s)
    RangeSet.empty

/-- Firing condition of one entry inside `memReadGate`'s loop. -/
def memReadFires {κ : Type} (info : MemCBInfo κ) (readRange : RangeSet) : Bool :=
  decide (info.type = MEMORY_READ) && readRange.overlaps info.range

/-- Firing condition of one entry inside `memWriteGate`'s loop: the entry has
MEMORY_WRITE and the write ranges overlap, or it is MEMORY_READ_WRITE and the
read ranges overlap. -/
def memWriteFires {κ : Type} (info : MemCBInfo κ) (readRange writeRange : RangeSet) : Bool :=
  (decide (info.type &&& MEMORY_WRITE ≠ 0) && writeRange.overlaps info.range) ||
  (decide (info.type = MEMORY_READ_WRITE) && readRange.overlaps info.range)

/-- `memReadGate` from VM.cpp. Besides the aggregated `VMAction` we return the
list of entries the loop invoked (its invocation trace), in loop order. -/
def memReadGate (memCBInfos : List (Nat × MemCBInfo VMAction))
    (memAccesses : List MemoryAccess) :
    List (Nat × MemCBInfo VMAction) × VMAction :=
  let readRange := readRangesOf memAccesses
  memCBInfos.foldl
    (fun acc p =>
      if memReadFires p.2 readRange then (acc.1 ++ [p], acc.2.merge p.2.cbk)
      else acc)
    ([], VMAction.CONTINUE)

/-- `memWriteGate` from VM.cpp, with its invocation trace. -/
def memWriteGate (memCBInfos : List (Nat × MemCBInfo VMAction))
    (memAccesses : List MemoryAccess) :
    List (Nat × MemCBInfo VMAction) × VMAction :=
  let readRange := readRangesOf memAccesses
  let writeRange := writeRangesOf memAccesses
  memCBInfos.foldl
    (fun acc p =>
      if memWriteFires p.2 readRange writeRange then (acc.1 ++ [p], acc.2.merge p.2.cbk)
      else acc)
    ([], VMAction.CONTINUE)

/-- InstPosition (QBDI/Callback.h): callback before or after the instruction. -/
inductive InstPosition where
  | PREINST
  | POSTINST
deriving DecidableEq, Repr

/-- InstCallback values as stored by the registration tables: a user callback
is represented by the `VMAction` it returns; the two gate functions installed
by `addMemRangeCB` are distinguished symbolically. -/
inductive InstCB where
  | const (ret : VMAction)
  | gateRead
  | gateWrite
deriving DecidableEq, Repr

/-- The `stopCallback` from VM.cpp (its body is `return VMAction::STOP;`);
modelled by the action it returns. -/
def stopCallback : VMAction := VMAction.STOP

/-- PatchCondition shapes used by the registration paths in VM.cpp. -/
inductive PatchCond where
  | condTrue
  | mnemonicIs (m : String)
  | addressIs (a : Nat)
  | instructionInRange (lo hi : Nat)
  | doesReadAccess
  | doesWriteAccess
  | readOrWrite
deriving DecidableEq, Repr

/-- An `InstrRuleBasic` as built by VM.cpp: condition, callback generator's
callback, position, breakToHost flag. -/
structure InstrRuleDesc where
  cond : PatchCond
  cbk : InstCB
  pos : InstPosition
  breakToHost : Bool
deriving DecidableEq, Repr

/-- A rule held by the Engine: an `InstrRuleBasic` from the code-callback
paths, an `InstrRuleUser` from `addInstrRule*` (with its range), or one of
the internal shadow rules installed by `recordMemoryAccess`. -/
inductive EngineRule where
  | basic (d : InstrRuleDesc)
  | user (rangeLo rangeHi : Nat)
  | shadowRead (k : Nat)
  | shadowWrite (k : Nat)
deriving DecidableEq, Repr

/-- Modelled from the spec: the Engine's registration tables
(src/Engine/Engine.cpp is not under src/). Per §4.7 and §7, the Engine keeps
instrumentation rules and VM-event callbacks under 32-bit ids with MSB = 0
(§3 identifier space), `deleteInstrumentation` of an unknown id returns
false (NotFound), and `deleteAllInstrumentations` drops every registration.
Fresh ids are drawn from one counter so ids are never reused. -/
structure Engine where
  rules : List (Nat × EngineRule)
  events : List (Nat × Nat)
  nextId : Nat
deriving DecidableEq, Repr

/-- Linear scan that erases the first pair with the given id, returning
whether a pair was found (the `for` + `erase` + `return true` loops of
VM.cpp's `deleteInstrumentation` and of the Engine's). -/
def eraseFirstId {α : Type} (l : List (Nat × α)) (id : Nat) : Bool × List (Nat × α) :=
  match l with
  | [] => (false, [])
  | p :: rest =>
    if p.1 = id then (true, rest)
    else
      let r := eraseFirstId rest id
      (r.1, p :: r.2)

def Engine.addInstrRule (e : Engine) (r : EngineRule) : Nat × Engine :=
  (e.nextId, { rules := e.rules ++ [(e.nextId, r)], events := e.events, nextId := e.nextId + 1 })

def Engine.addVMEventCB (e : Engine) (mask : Nat) : Nat × Engine :=
  (e.nextId, { rules := e.rules, events := e.events ++ [(e.nextId, mask)], nextId := e.nextId + 1 })

def Engine.deleteInstrumentation (e : Engine) (id : Nat) : Bool × Engine :=
  let r := eraseFirstId e.rules id
  if r.1 then (true, { e with rules := r.2 })
  else
    let v := eraseFirstId e.events id
    if v.1 then (true, { e with events := v.2 })
    else (false, e)

def Engine.deleteAllInstrumentations (e : Engine) : Engine :=
  { e with rules := [], events := [] }

/-- Modelled from the spec: the observable face of the current ExecBlock
(src/ExecBlock/*.cpp is not under src/): current sequence id, current
instruction id, sequence bounds (§3: `seq_index` of an ExecBlock), the
recorded memory accesses of each instruction (§4.8 per-Context ring; the
Bool is the afterInst flag of `analyseMemoryAccess`: whether the completed,
post-instruction accesses are included), and the per-instruction analysis. -/
structure ExecBlockM where
  curSeqID : Nat
  curInstID : Nat
  seqStart : Nat → Nat
  seqEnd : Nat → Nat
  access : Nat → Bool → List MemoryAccess
  analysisOf : Nat → Nat → Option Nat

/-- Modelled from the spec: the internal shadow rules installed when memory
recording is first enabled for a direction (§4.8: a fixed set of shadow
generators; `getInstrRuleMemAccessRead` / `...Write` are not under src/).
Each list element yields one engine rule; the lists' contents are opaque. -/
structure Cfg where
  shadowRead : List Nat
  shadowWrite : List Nat

/-- The VM state from QBDI/VM.h: the owned Engine (with its current
ExecBlock and pre/post-instruction flag), `memoryLoggingLevel`,
`memCBInfos`, `memCBID`, the two gate ids, and the id list of
`instrCBInfos` (the C-callback wrappers of `addInstrRule`). -/
structure VMState where
  engine : Engine
  curExecBlock : Option ExecBlockM
  enginePreInst : Bool
  memoryLoggingLevel : Nat
  memCBInfos : List (Nat × MemCBInfo InstCB)
  memCBID : Nat
  memReadGateCBID : Nat
  memWriteGateCBID : Nat
  instrCBInfos : List Nat

/-- The state built by the VM constructor. -/
def initVM : VMState :=
  { engine := ⟨[], [], 0⟩
    curExecBlock := none
    enginePreInst := false
    memoryLoggingLevel := 0
    memCBInfos := []
    memCBID := 0
    memReadGateCBID := INVALID_EVENTID
    memWriteGateCBID := INVALID_EVENTID
    instrCBInfos := [] }

def VMState.addMnemonicCB (s : VMState) (mnemonic : Option String)
    (pos : InstPosition) (cbk : Option InstCB) : Nat × VMState :=
  match mnemonic with
  | none => (INVALID_EVENTID, s)
  | some m =>
    match cbk with
    | none => (INVALID_EVENTID, s)
    | some c =>
      let r := s.engine.addInstrRule (.basic ⟨.mnemonicIs m, c, pos, true⟩)
      (r.1, { s with engine := r.2 })

def VMState.addCodeCB (s : VMState) (pos : InstPosition) (cbk : Option InstCB) :
    Nat × VMState :=
  match cbk with
  | none => (INVALID_EVENTID, s)
  | some c =>
    let r := s.engine.addInstrRule (.basic ⟨.condTrue, c, pos, true⟩)
    (r.1, { s with engine := r.2 })

def VMState.addCodeAddrCB (s : VMState) (address : Nat) (pos : InstPosition)
    (cbk : Option InstCB) : Nat × VMState :=
  match cbk with
  | none => (INVALID_EVENTID, s)
  | some c =>
    let r := s.engine.addInstrRule (.basic ⟨.addressIs address, c, pos, true⟩)
    (r.1, { s with engine := r.2 })

def VMState.addCodeRangeCB (s : VMState) (start stop : Nat) (pos : InstPosition)
    (cbk : Option InstCB) : Nat × VMState :=
  if ¬ start < stop then (INVALID_EVENTID, s)
  else match cbk with
  | none => (INVALID_EVENTID, s)
  | some c =>
    let r := s.engine.addInstrRule (.basic ⟨.instructionInRange start stop, c, pos, true⟩)
    (r.1, { s with engine := r.2 })

/-- `recordMemoryAccess` in its x86/x86_64 configuration (the `constexpr`
guard passes). -/
def VMState.recordMemoryAccess (s : VMState) (cfg : Cfg) (type : Nat) :
    Bool × VMState :=
  let s1 :=
    if type &&& MEMORY_READ ≠ 0 ∧ s.memoryLoggingLevel &&& MEMORY_READ = 0 then
      { s with
        memoryLoggingLevel := s.memoryLoggingLevel ||| MEMORY_READ
        engine := cfg.shadowRead.foldl (fun e k => (e.addInstrRule (.shadowRead k)).2) s.engine }
    else s
  let s2 :=
    if type &&& MEMORY_WRITE ≠ 0 ∧ s1.memoryLoggingLevel &&& MEMORY_WRITE = 0 then
      { s1 with
        memoryLoggingLevel := s1.memoryLoggingLevel ||| MEMORY_WRITE
        engine := cfg.shadowWrite.foldl (fun e k => (e.addInstrRule (.shadowWrite k)).2) s1.engine }
    else s1
  (true, s2)

def VMState.addMemAccessCB (s : VMState) (cfg : Cfg) (type : Nat)
    (cbk : Option InstCB) : Nat × VMState :=
  match cbk with
  | none => (INVALID_EVENTID, s)
  | some c =>
    let s1 := (s.recordMemoryAccess cfg type).2
    if type = MEMORY_READ then
      let r := s1.engine.addInstrRule (.basic ⟨.doesReadAccess, c, .PREINST, true⟩)
      (r.1, { s1 with engine := r.2 })
    else if type = MEMORY_WRITE then
      let r := s1.engine.addInstrRule (.basic ⟨.doesWriteAccess, c, .POSTINST, true⟩)
      (r.1, { s1 with engine := r.2 })
    else if type = MEMORY_READ_WRITE then
      let r := s1.engine.addInstrRule (.basic ⟨.readOrWrite, c, .POSTINST, true⟩)
      (r.1, { s1 with engine := r.2 })
    else (INVALID_EVENTID, s1)

/-- The first lazy gate-installation block of `addMemRangeCB`: install the
read gate when the entry is MEMORY_READ and no read gate exists yet. -/
def VMState.installReadGate (s : VMState) (cfg : Cfg) (type : Nat) : VMState :=
  if type = MEMORY_READ ∧ s.memReadGateCBID = INVALID_EVENTID then
    let r := s.addMemAccessCB cfg MEMORY_READ (some .gateRead)
    { r.2 with memReadGateCBID := r.1 }
  else s

/-- The second lazy gate-installation block of `addMemRangeCB`: install the
write gate when the entry has MEMORY_WRITE and no write gate exists yet. -/
def VMState.installWriteGate (s : VMState) (cfg : Cfg) (type : Nat) : VMState :=
  if type &&& MEMORY_WRITE ≠ 0 ∧ s.memWriteGateCBID = INVALID_EVENTID then
    let r := s.addMemAccessCB cfg MEMORY_READ_WRITE (some .gateWrite)
    { r.2 with memWriteGateCBID := r.1 }
  else s

/-- The two lazy gate-installation blocks at the head of `addMemRangeCB`. -/
def VMState.memRangeGates (s : VMState) (cfg : Cfg) (type : Nat) : VMState :=
  (s.installReadGate cfg type).installWriteGate cfg type

def VMState.addMemRangeCB (s : VMState) (cfg : Cfg) (start stop type : Nat)
    (cbk : Option InstCB) : Nat × VMState :=
  if ¬ start < stop then (INVALID_EVENTID, s)
  else if type &&& MEMORY_READ_WRITE = 0 then (INVALID_EVENTID, s)
  else match cbk with
  | none => (INVALID_EVENTID, s)
  | some c =>
    let s2 := s.memRangeGates cfg type
    let id := s2.memCBID
    let s3 := { s2 with memCBID := id + 1 }
    if ¬ id < EVENTID_VIRTCB_MASK then (INVALID_EVENTID, s3)
    else
      (id ||| EVENTID_VIRTCB_MASK,
       { s3 with memCBInfos := s3.memCBInfos ++ [(id, ⟨type, ⟨start, stop⟩, c⟩)] })

def VMState.addMemAddrCB (s : VMState) (cfg : Cfg) (address type : Nat)
    (cbk : Option InstCB) : Nat × VMState :=
  match cbk with
  | none => (INVALID_EVENTID, s)
  | some c => s.addMemRangeCB cfg address ((address + 1) % 18446744073709551616) type (some c)

def VMState.addVMEventCB (s : VMState) (mask : Nat) (cbk : Option InstCB) :
    Nat × VMState :=
  if mask = 0 then (INVALID_EVENTID, s)
  else match cbk with
  | none => (INVALID_EVENTID, s)
  | some _ =>
    let r := s.engine.addVMEventCB mask
    (r.1, { s with engine := r.2 })

/-- `addInstrRule(InstrRuleCallback, ...)`: an `InstrRuleUser` over the full
address range. -/
def VMState.addInstrRule (s : VMState) : Nat × VMState :=
  let r := s.engine.addInstrRule (.user 0 18446744073709551615)
  (r.1, { s with engine := r.2 })

/-- `addInstrRule(InstrRuleCallbackC, ...)`: routes through the C gate and
records the id in `instrCBInfos`. -/
def VMState.addInstrRuleC (s : VMState) : Nat × VMState :=
  let r := s.addInstrRule
  (r.1, { r.2 with instrCBInfos := r.2.instrCBInfos ++ [r.1] })

def VMState.addInstrRuleRange (s : VMState) (start stop : Nat) : Nat × VMState :=
  let r := s.engine.addInstrRule (.user start stop)
  (r.1, { s with engine := r.2 })

def VMState.addInstrRuleRangeC (s : VMState) (start stop : Nat) : Nat × VMState :=
  let r := s.addInstrRuleRange start stop
  (r.1, { r.2 with instrCBInfos := r.2.instrCBInfos ++ [r.1] })

def VMState.deleteInstrumentation (s : VMState) (id : Nat) : Bool × VMState :=
  if id &&& EVENTID_VIRTCB_MASK ≠ 0 then
    let id2 := id &&& (EVENTID_VIRTCB_MASK - 1)
    let r := eraseFirstId s.memCBInfos id2
    (r.1, { s with memCBInfos := r.2 })
  else
    let s1 := { s with instrCBInfos := s.instrCBInfos.filter (fun x => x ≠ id) }
    let r := s1.engine.deleteInstrumentation id
    (r.1, { s1 with engine := r.2 })

def VMState.deleteAllInstrumentations (s : VMState) : VMState :=
  { s with
    engine := s.engine.deleteAllInstrumentations
    memReadGateCBID := INVALID_EVENTID
    memWriteGateCBID := INVALID_EVENTID
    memCBInfos := []
    instrCBInfos := []
    memoryLoggingLevel := 0 }

/-- Modelled from the spec: `analyseMemoryAccess` (Patch/MemoryAccess.cpp is
not under src/) reads the recorded accesses of one instruction out of the
ExecBlock's per-Context ring (§4.8); the Bool is its afterInst argument. -/
def analyseMemoryAccess (b : ExecBlockM) (instID : Nat) (afterInst : Bool) :
    List MemoryAccess :=
  b.access instID afterInst

/-- `getInstMemoryAccess` from VM.cpp. The unchanged state is returned
alongside the result to express that the const query mutates nothing. -/
def VMState.getInstMemoryAccess (s : VMState) : List MemoryAccess × VMState :=
  match s.curExecBlock with
  | none => ([], s)
  | some b => (analyseMemoryAccess b b.curInstID (!s.enginePreInst), s)

/-- The `for (itInstID = curExecBlock->getSeqStart(bbID); itInstID <=
std::min(endInstID, instID); itInstID++)` loop of `getBBMemoryAccess`. -/
def bbCollect (b : ExecBlockM) (instID stopID : Nat) (preInst : Bool) (it : Nat) :
    List MemoryAccess :=
  if it ≤ stopID then
    analyseMemoryAccess b it (decide (¬ it = instID) || !preInst) ++
      bbCollect b instID stopID preInst (it + 1)
  else []
termination_by stopID + 1 - it
decreasing_by omega

/-- `getBBMemoryAccess` from VM.cpp. -/
def VMState.getBBMemoryAccess (s : VMState) : List MemoryAccess × VMState :=
  match s.curExecBlock with
  | none => ([], s)
  | some b =>
    (bbCollect b b.curInstID (min (b.seqEnd b.curSeqID) b.curInstID)
      s.enginePreInst (b.seqStart b.curSeqID), s)

/-- `getInstAnalysis` from VM.cpp (the `AnalysisType` argument and the
returned `InstAnalysis` pointer are abstracted to numbers; a null pointer is
`none`). -/
def VMState.getInstAnalysis (s : VMState) (type : Nat) : Option Nat × VMState :=
  match s.curExecBlock with
  | none => (none, s)
  | some b => (b.analysisOf b.curInstID type, s)

/-- `VM::run` from VM.cpp: register the stop callback at `stop`, run the
engine, delete the stop callback again. Modelled from the spec for the
missing Engine::run (Engine.cpp is not under src/): per §5 the registration
tables are exclusively owned by the Engine thread and the dispatcher loop
does not alter them, so the engine run is an arbitrary function giving the
returned Bool and the final execution point (current ExecBlock and
pre-instruction flag). -/
def VMState.run (engineRun : VMState → Bool × (Option ExecBlockM × Bool))
    (start stop : Nat) (s : VMState) : Bool × VMState :=
  let r0 := s.addCodeAddrCB stop InstPosition.PREINST (some (.const stopCallback))
  let stopCB := r0.1
  let s1 := r0.2
  let e := engineRun s1
  let s2 := { s1 with curExecBlock := e.2.1, enginePreInst := e.2.2 }
  let r1 := s2.deleteInstrumentation stopCB
  (e.1, r1.2)

/-- The registration operations named by the id round-trip property. -/
inductive RegOp where
  | codeCB (pos : InstPosition) (cbk : Option InstCB)
  | codeAddrCB (address : Nat) (pos : InstPosition) (cbk : Option InstCB)
  | codeRangeCB (start stop : Nat) (pos : InstPosition) (cbk : Option InstCB)
  | mnemonicCB (m : Option String) (pos : InstPosition) (cbk : Option InstCB)
  | memRangeCB (start stop type : Nat) (cbk : Option InstCB)
  | memAddrCB (address type : Nat) (cbk : Option InstCB)
  | vmEventCB (mask : Nat) (cbk : Option InstCB)
  | instrRule
  | instrRuleC
  | instrRuleRange (start stop : Nat)
  | instrRuleRangeC (start stop : Nat)

def applyReg (cfg : Cfg) (op : RegOp) (s : VMState) : Nat × VMState :=
  match op with
  | .codeCB pos cbk => s.addCodeCB pos cbk
  | .codeAddrCB a pos cbk => s.addCodeAddrCB a pos cbk
  | .codeRangeCB a b pos cbk => s.addCodeRangeCB a b pos cbk
  | .mnemonicCB m pos cbk => s.addMnemonicCB m pos cbk
  | .memRangeCB a b t cbk => s.addMemRangeCB cfg a b t cbk
  | .memAddrCB a t cbk => s.addMemAddrCB cfg a t cbk
  | .vmEventCB mask cbk => s.addVMEventCB mask cbk
  | .instrRule => s.addInstrRule
  | .instrRuleC => s.addInstrRuleC
  | .instrRuleRange a b => s.addInstrRuleRange a b
  | .instrRuleRangeC a b => s.addInstrRuleRangeC a b

/-- Whether the operation registers a virtual (memory-range) callback. -/
def RegOp.isVirt : RegOp → Bool
  | .memRangeCB _ _ _ _ => true
  | .memAddrCB _ _ _ => true
  | _ => false

/-- Whether the operation registers an engine instrumentation rule (the
engine-rule registrations named by the MSB dispatch property; VM events are
neither virtual callbacks nor instrumentation rules). -/
def RegOp.isEngineRule : RegOp → Bool
  | .codeCB _ _ => true
  | .codeAddrCB _ _ _ => true
  | .codeRangeCB _ _ _ _ => true
  | .mnemonicCB _ _ _ => true
  | .instrRule => true
  | .instrRuleC => true
  | .instrRuleRange _ _ => true
  | .instrRuleRangeC _ _ => true
  | _ => false

/-- Well-formedness of a VM state: every table id is below its allocation
counter (so ids are never reused), and the engine counter stays inside the
31-bit engine id space of §3. `initVM` satisfies it and every operation
preserves it while fewer than 2^31 ids have been allocated. -/
structure WF (s : VMState) : Prop where
  rulesBelow : ∀ p ∈ s.engine.rules, p.1 < s.engine.nextId
  eventsBelow : ∀ p ∈ s.engine.events, p.1 < s.engine.nextId
  instrBelow : ∀ i ∈ s.instrCBInfos, i < s.engine.nextId
  memBelow : ∀ p ∈ s.memCBInfos, p.1 < s.memCBID
  nextLt : s.engine.nextId < EVENTID_VIRTCB_MASK

/-- The public memory-callback operations quantified over by the gate
invariant. -/
inductive MemOp where
  | addRange (start stop type : Nat) (cbk : Option InstCB)
  | addAddr (address type : Nat) (cbk : Option InstCB)
  | del (id : Nat)
  | delAll

def applyMemOp (cfg : Cfg) (op : MemOp) (s : VMState) : VMState :=
  match op with
  | .addRange a b t c => (s.addMemRangeCB cfg a b t c).2
  | .addAddr a t c => (s.addMemAddrCB cfg a t c).2
  | .del id => (s.deleteInstrumentation id).2
  | .delAll => s.deleteAllInstrumentations

/-- Reachability from the fresh VM by the four public memory-callback
operations, restricted to runs that never exhaust the 31-bit engine id
space (each step keeps headroom for the shadow rules and one gate rule). -/
inductive ReachM (cfg : Cfg) : VMState → Prop where
  | init : ReachM cfg initVM
  | step (op : MemOp) (s : VMState) : ReachM cfg s →
      s.engine.nextId + cfg.shadowRead.length + cfg.shadowWrite.length + 1
        < EVENTID_VIRTCB_MASK →
      ReachM cfg (applyMemOp cfg op s)

/-- One direction of the specified gate invariant: whenever some registered
MemCBInfo entry requires the read (resp. write) gate, that gate id is set. -/
def GateInv (s : VMState) : Prop :=
  ((∃ p ∈ s.memCBInfos, p.2.type = MEMORY_READ) → s.memReadGateCBID ≠ INVALID_EVENTID)
  ∧ ((∃ p ∈ s.memCBInfos, p.2.type &&& MEMORY_WRITE ≠ 0) →
      s.memWriteGateCBID ≠ INVALID_EVENTID)

/-- The MCInst builders used by getBreakToHost (Layer2_X86_64.h is not under
src/): a move-immediate into a register, in 32- and 64-bit width. -/
inductive X86MCInst where
  | movri32 (reg imm : Nat)
  | movri64 (reg imm : Nat)
deriving DecidableEq, Repr

def mov32ri (reg imm : Nat) : X86MCInst := .movri32 reg imm

def mov64ri (reg imm : Nat) : X86MCInst := .movri64 reg imm

/-- Context offsets used by getBreakToHost: the selector slot of the host
state, or the saved slot of a guest register. -/
inductive CtxOffset where
  | selector
  | regSlot (r : Nat)
deriving DecidableEq, Repr

/-- The RelocatableInst variants getBreakToHost emits (spec §4.1):
`HostPCRel` (bake the host PC plus a byte offset into an operand of the
inner instruction), `SaveReg`/`LoadReg` (store/load a register to/from a
Context offset), `JmpEpilogue` (unconditional branch to the epilogue). -/
inductive RelocatableInst where
  | hostPCRel (inst : X86MCInst) (opn : Nat) (offset : Nat)
  | saveReg (reg : Nat) (o : CtxOffset)
  | loadReg (reg : Nat) (o : CtxOffset)
  | jmpEpilogue
deriving DecidableEq, Repr

/-- `getBreakToHost(temp)` from InstrRules_X86_64.cpp, with the `is_x86`
constexpr branch as a parameter (22 is the x86 patch length, 29 the x86_64
one). -/
def getBreakToHost (is86 : Bool) (temp : Nat) : List RelocatableInst :=
  [ if is86 then .hostPCRel (mov32ri temp 0) 1 22 else .hostPCRel (mov64ri temp 0) 1 29,
    .saveReg temp .selector,
    .loadReg temp (.regSlot temp),
    .jmpEpilogue ]

/-- Guest-visible machine state during an instrumentation patch: the live
registers, the per-register Context slots, the Context selector, and whether
control has branched to the block epilogue. -/
structure MachineState where
  regs : Nat → Nat
  slots : Nat → Nat
  selector : Nat
  jumpedToEpilogue : Bool

def updFn (f : Nat → Nat) (i v : Nat) : Nat → Nat :=
  fun j => if j = i then v else f j

/-- Modelled from the spec (§4.1): the semantic effect of one materialised
RelocatableInst executed at host address `hostPC`. `HostPCRel` writes
`hostPC + offset` into the destination register of the inner
move-immediate; `SaveReg`/`LoadReg` move between a register and its Context
offset; `JmpEpilogue` transfers control to the epilogue. -/
def stepReloc (hostPC : Nat) (m : MachineState) : RelocatableInst → MachineState
  | .hostPCRel (.movri32 r _) _ off => { m with regs := updFn m.regs r (hostPC + off) }
  | .hostPCRel (.movri64 r _) _ off => { m with regs := updFn m.regs r (hostPC + off) }
  | .saveReg r .selector => { m with selector := m.regs r }
  | .saveReg r (.regSlot k) => { m with slots := updFn m.slots k (m.regs r) }
  | .loadReg r .selector => { m with regs := updFn m.regs r m.selector }
  | .loadReg r (.regSlot k) => { m with regs := updFn m.regs r (m.slots k) }
  | .jmpEpilogue => { m with jumpedToEpilogue := true }

/-- Execute a materialised RelocatableInst sequence laid out from host
address `pc`, each instruction occupying `size` bytes. -/
def execRelocs (size : RelocatableInst → Nat) : Nat → MachineState → List RelocatableInst → MachineState
  | _, m, [] => m
  | pc, m, i :: rest => execRelocs size (pc + size i) (stepReloc pc m i) rest

theorem gate_foldl_spec {α : Type} (pred : α → Bool) (g : α → VMAction) :
    ∀ (l t : List α) (a : VMAction),
      l.foldl (fun acc p => if pred p then (acc.1 ++ [p], acc.2.merge (g p)) else acc) (t, a)
        = (t ++ l.filter pred, ((l.filter pred).map g).foldl VMAction.merge a) := by
  intro l
  induction l with
  | nil => intro t a; simp
  | cons x l ih =>
    intro t a
    by_cases h : pred x = true
    · simp [h, ih]
    · simp [h, ih]

theorem memReadGate_eq (infos : List (Nat × MemCBInfo VMAction)) (accs : List MemoryAccess) :
    memReadGate infos accs
      = (infos.filter (fun p => memReadFires p.2 (readRangesOf accs)),
         ((infos.filter (fun p => memReadFires p.2 (readRangesOf accs))).map
            (fun p => p.2.cbk)).foldl VMAction.merge VMAction.CONTINUE) := by
  unfold memReadGate
  exact gate_foldl_spec _ _ infos [] VMAction.CONTINUE

theorem memWriteGate_eq (infos : List (Nat × MemCBInfo VMAction)) (accs : List MemoryAccess) :
    memWriteGate infos accs
      = (infos.filter
           (fun p => memWriteFires p.2 (readRangesOf accs) (writeRangesOf accs)),
         ((infos.filter
             (fun p => memWriteFires p.2 (readRangesOf accs) (writeRangesOf accs))).map
            (fun p => p.2.cbk)).foldl VMAction.merge VMAction.CONTINUE) := by
  unfold memWriteGate
  exact gate_foldl_spec _ _ infos [] VMAction.CONTINUE

theorem VMAction.toNat_merge (a b : VMAction) :
    (VMAction.merge a b).toNat = Nat.max a.toNat b.toNat := by
  cases a <;> cases b <;> decide

theorem VMAction.toNat_le_two (a : VMAction) : a.toNat ≤ 2 := by
  cases a <;> decide

theorem VMAction.toNat_inj {a b : VMAction} (h : a.toNat = b.toNat) : a = b := by
  cases a <;> cases b <;> first | rfl | (exfalso; exact absurd h (by decide))

theorem foldl_merge_toNat : ∀ (l : List VMAction) (a : VMAction),
    (l.foldl VMAction.merge a).toNat = (l.map VMAction.toNat).foldl Nat.max a.toNat := by
  intro l
  induction l with
  | nil => intro a; rfl
  | cons x l ih => intro a; simp [ih, VMAction.toNat_merge]

theorem init_le_foldl_max : ∀ (l : List Nat) (a : Nat), a ≤ l.foldl Nat.max a := by
  intro l
  induction l with
  | nil => intro a; exact le_refl a
  | cons x l ih => intro a; exact le_trans (Nat.le_max_left a x) (ih _)

theorem mem_le_foldl_max {b : Nat} : ∀ (l : List Nat) (a : Nat), b ∈ l → b ≤ l.foldl Nat.max a := by
  intro l
  induction l with
  | nil => intro a h; cases h
  | cons x l ih =>
    intro a h
    rcases List.mem_cons.mp h with h | h
    · subst h
      exact le_trans (Nat.le_max_right a b) (init_le_foldl_max l _)
    · exact ih _ h

theorem foldl_max_le {c : Nat} : ∀ (l : List Nat) (a : Nat),
    (∀ x ∈ l, x ≤ c) → a ≤ c → l.foldl Nat.max a ≤ c := by
  intro l
  induction l with
  | nil => intro a _ ha; exact ha
  | cons x l ih =>
    intro a h ha
    exact ih _ (fun y hy => h y (List.mem_cons_of_mem _ hy))
      (Nat.max_le.mpr ⟨ha, h x (List.mem_cons_self x l)⟩)

/-- C3: when several user callbacks fire at one site through `memReadGate` or
`memWriteGate`, the gate's returned `VMAction` is the maximum of the invoked
callbacks' returns under the severity order STOP > BREAK_TO_VM > CONTINUE
(numerically CONTINUE = 0, BREAK_TO_VM = 1, STOP = 2); in particular, if STOP
is among the returns the gate returns STOP (so the set of returns
containing CONTINUE, BREAK_TO_VM and STOP in any order yields STOP), and if
no callback fires the gate returns CONTINUE. -/
theorem memGates_return_most_severe
    (infos : List (Nat × MemCBInfo VMAction)) (accs : List MemoryAccess) :
    ((memReadGate infos accs).2.toNat
      = (((memReadGate infos accs).1.map (fun p => p.2.cbk)).map VMAction.toNat).foldl Nat.max 0)
    ∧ ((memWriteGate infos accs).2.toNat
      = (((memWriteGate infos accs).1.map (fun p => p.2.cbk)).map VMAction.toNat).foldl Nat.max 0)
    ∧ (VMAction.STOP ∈ (memReadGate infos accs).1.map (fun p => p.2.cbk) →
        (memReadGate infos accs).2 = VMAction.STOP)
    ∧ (VMAction.STOP ∈ (memWriteGate infos accs).1.map (fun p => p.2.cbk) →
        (memWriteGate infos accs).2 = VMAction.STOP)
    ∧ ((memReadGate infos accs).1 = [] → (memReadGate infos accs).2 = VMAction.CONTINUE)
    ∧ ((memWriteGate infos accs).1 = [] → (memWriteGate infos accs).2 = VMAction.CONTINUE) := by
  have hr := memReadGate_eq infos accs
  have hw := memWriteGate_eq infos accs
  have key : ∀ (l : List VMAction),
      (l.foldl VMAction.merge VMAction.CONTINUE).toNat
        = (l.map VMAction.toNat).foldl Nat.max 0 := fun l => foldl_merge_toNat l _
  have stopKey : ∀ (l : List VMAction), VMAction.STOP ∈ l →
      l.foldl VMAction.merge VMAction.CONTINUE = VMAction.STOP := by
    intro l hl
    apply VMAction.toNat_inj
    have h2 : (2 : Nat) ∈ l.map VMAction.toNat := List.mem_map_of_mem VMAction.toNat hl
    have hge := mem_le_foldl_max (l.map VMAction.toNat) 0 h2
    have hle : (l.map VMAction.toNat).foldl Nat.max 0 ≤ 2 := by
      apply foldl_max_le
      · intro x hx
        rcases List.mem_map.mp hx with ⟨a, _, rfl⟩
        exact VMAction.toNat_le_two a
      · omega
    rw [key]
    have h2' : VMAction.STOP.toNat = 2 := rfl
    omega
  refine ⟨?_, ?_, ?_, ?_, ?_, ?_⟩
  · rw [hr]; exact key _
  · rw [hw]; exact key _
  · intro h
    rw [hr] at h ⊢
    exact stopKey _ h
  · intro h
    rw [hw] at h ⊢
    exact stopKey _ h
  · intro h
    rw [hr] at h ⊢
    simp only [Prod.fst] at h
    rw [h]
    rfl
  · intro h
    rw [hw] at h ⊢
    simp only [Prod.fst] at h
    rw [h]
    rfl

/-- Witness for C3: three entries returning CONTINUE, BREAK_TO_VM and STOP
all fire on one read access, and the gate returns STOP. -/
theorem memGates_return_most_severe_witness :
    (memReadGate
      [(0, ⟨MEMORY_READ, ⟨0, 8⟩, VMAction.CONTINUE⟩),
       (1, ⟨MEMORY_READ, ⟨0, 8⟩, VMAction.BREAK_TO_VM⟩),
       (2, ⟨MEMORY_READ, ⟨0, 8⟩, VMAction.STOP⟩)]
      [⟨MEMORY_READ, 0, 4⟩]).2 = VMAction.STOP :=
  (memGates_return_most_severe
    [(0, ⟨MEMORY_READ, ⟨0, 8⟩, VMAction.CONTINUE⟩),
     (1, ⟨MEMORY_READ, ⟨0, 8⟩, VMAction.BREAK_TO_VM⟩),
     (2, ⟨MEMORY_READ, ⟨0, 8⟩, VMAction.STOP⟩)]
    [⟨MEMORY_READ, 0, 4⟩]).2.2.1 (by decide)

theorem Range.overlaps_iff (a b : Range) :
    a.overlaps b = true ↔
      ∃ x, a.start ≤ x ∧ x < a.stop ∧ b.start ≤ x ∧ x < b.stop := by
  unfold Range.overlaps
  simp only [decide_eq_true_eq]
  constructor
  · intro h
    refine ⟨max a.start b.start, ?_, ?_, ?_, ?_⟩ <;> omega
  · rintro ⟨x, h1, h2, h3, h4⟩
    omega

theorem overlaps_fold (mask : Nat) (r : Range) :
    ∀ (l : List MemoryAccess) (s : RangeSet),
      RangeSet.overlaps
        (l.foldl
          (fun s a =>
            if a.type &&& mask ≠ 0 then
              RangeSet.add s ⟨a.accessAddress, a.accessAddress + a.size⟩
            else s)
          s) r
      = (s.overlaps r ||
          l.any (fun a =>
            decide (a.type &&& mask ≠ 0) &&
              Range.overlaps ⟨a.accessAddress, a.accessAddress + a.size⟩ r)) := by
  intro l
  induction l with
  | nil => intro s; simp
  | cons a l ih =>
    intro s
    simp only [List.foldl_cons, List.any_cons]
    by_cases h : a.type &&& mask ≠ 0
    · rw [if_pos h, ih]
      have hd : decide (a.type &&& mask ≠ 0) = true := by
        simp [h]
      rw [hd, Bool.true_and]
      show (RangeSet.overlaps (RangeSet.add s _) r || _) = _
      simp only [RangeSet.overlaps, RangeSet.add, List.any_cons]
      cases Range.overlaps ⟨a.accessAddress, a.accessAddress + a.size⟩ r <;>
        cases s.any (fun x => x.overlaps r) <;> simp
    · rw [if_neg h, ih]
      simp [h]

theorem readRangesOf_overlaps (accs : List MemoryAccess) (r : Range) :
    RangeSet.overlaps (readRangesOf accs) r
      = accs.any (fun a =>
          decide (a.type &&& MEMORY_READ ≠ 0) &&
            Range.overlaps ⟨a.accessAddress, a.accessAddress + a.size⟩ r) := by
  unfold readRangesOf
  rw [overlaps_fold]
  rfl

/-- C6: an entry registered through `addMemRangeCB(lo, hi, MEMORY_READ, cbk)`
is invoked by the read gate at an instruction if and only if some memory
access of that instruction whose type includes MEMORY_READ has an access
interval containing a point of the half-open interval from lo to hi; and
every entry the read gate invokes is a registered MEMORY_READ entry with such
an overlapping read access (so the gate never fires on write-only
accesses). -/
theorem memReadGate_fires_iff_read_overlap
    (infos : List (Nat × MemCBInfo VMAction)) (accs : List MemoryAccess)
    (id lo hi : Nat) (cb : VMAction)
    (hmem : (id, (⟨MEMORY_READ, ⟨lo, hi⟩, cb⟩ : MemCBInfo VMAction)) ∈ infos) :
    ((id, (⟨MEMORY_READ, ⟨lo, hi⟩, cb⟩ : MemCBInfo VMAction)) ∈ (memReadGate infos accs).1
      ↔ ∃ a ∈ accs, a.type &&& MEMORY_READ ≠ 0 ∧
          ∃ x, a.accessAddress ≤ x ∧ x < a.accessAddress + a.size ∧ lo ≤ x ∧ x < hi)
    ∧ (∀ q ∈ (memReadGate infos accs).1,
        q ∈ infos ∧ q.2.type = MEMORY_READ ∧
          ∃ a ∈ accs, a.type &&& MEMORY_READ ≠ 0 ∧
            ∃ x, a.accessAddress ≤ x ∧ x < a.accessAddress + a.size ∧
              q.2.range.start ≤ x ∧ x < q.2.range.stop) := by
  rw [memReadGate_eq]
  constructor
  · rw [List.mem_filter]
    unfold memReadFires
    simp only [Bool.and_eq_true, decide_eq_true_eq]
    rw [readRangesOf_overlaps]
    simp only [List.any_eq_true, Bool.and_eq_true, decide_eq_true_eq]
    constructor
    · rintro ⟨_, _, a, ha, hty, hov⟩
      rcases (Range.overlaps_iff _ _).mp hov with ⟨x, h1, h2, h3, h4⟩
      exact ⟨a, ha, hty, x, h1, h2, h3, h4⟩
    · rintro ⟨a, ha, hty, x, h1, h2, h3, h4⟩
      exact ⟨hmem, trivial, a, ha, hty, (Range.overlaps_iff _ _).mpr ⟨x, h1, h2, h3, h4⟩⟩
  · intro q hq
    rw [List.mem_filter] at hq
    rcases hq with ⟨hqmem, hfires⟩
    unfold memReadFires at hfires
    simp only [Bool.and_eq_true, decide_eq_true_eq] at hfires
    rcases hfires with ⟨hty, hov⟩
    rw [readRangesOf_overlaps] at hov
    simp only [List.any_eq_true, Bool.and_eq_true, decide_eq_true_eq] at hov
    rcases hov with ⟨a, ha, haty, haov⟩
    rcases (Range.overlaps_iff _ _).mp haov with ⟨x, h1, h2, h3, h4⟩
    exact ⟨hqmem, hty, a, ha, haty, x, h1, h2, h3, h4⟩

/-- Witness for C6 at a concrete input: one MEMORY_READ entry over the range
from 100 to 108, one read access of 4 bytes at 104 (fires) and, negatively,
with only a write access at 104 the gate invokes nothing. -/
theorem memReadGate_fires_iff_read_overlap_witness :
    ((0, (⟨MEMORY_READ, ⟨100, 108⟩, VMAction.CONTINUE⟩ : MemCBInfo VMAction))
        ∈ (memReadGate [(0, ⟨MEMORY_READ, ⟨100, 108⟩, VMAction.CONTINUE⟩)]
            [⟨MEMORY_READ, 104, 4⟩]).1
      ↔ ∃ a ∈ [(⟨MEMORY_READ, 104, 4⟩ : MemoryAccess)], a.type &&& MEMORY_READ ≠ 0 ∧
          ∃ x, a.accessAddress ≤ x ∧ x < a.accessAddress + a.size ∧ 100 ≤ x ∧ x < 108) := by
  exact (memReadGate_fires_iff_read_overlap
    [(0, ⟨MEMORY_READ, ⟨100, 108⟩, VMAction.CONTINUE⟩)]
    [⟨MEMORY_READ, 104, 4⟩] 0 100 108 VMAction.CONTINUE (by simp)).1

theorem WF_init : WF initVM := by
  constructor <;> simp [initVM, EVENTID_VIRTCB_MASK]

theorem mask_eq_two_pow : EVENTID_VIRTCB_MASK = 2 ^ 31 := by
  norm_num [EVENTID_VIRTCB_MASK]

theorem and_mask_eq_zero_of_lt {k : Nat} (h : k < EVENTID_VIRTCB_MASK) :
    k &&& EVENTID_VIRTCB_MASK = 0 := by
  rw [mask_eq_two_pow] at h ⊢
  rw [Nat.and_two_pow, Nat.testBit_lt_two_pow h]
  rfl

theorem or_mask_and_mask {id : Nat} :
    (id ||| EVENTID_VIRTCB_MASK) &&& EVENTID_VIRTCB_MASK ≠ 0 := by
  rw [mask_eq_two_pow]
  rw [Nat.and_two_pow, Nat.testBit_lor, Nat.testBit_two_pow_self]
  simp

theorem or_mask_low {id : Nat} (h : id < EVENTID_VIRTCB_MASK) :
    (id ||| EVENTID_VIRTCB_MASK) &&& (EVENTID_VIRTCB_MASK - 1) = id := by
  rw [mask_eq_two_pow] at h ⊢
  apply Nat.eq_of_testBit_eq
  intro i
  rw [Nat.testBit_land, Nat.testBit_lor, Nat.testBit_two_pow_sub_one]
  by_cases hi : i < 31
  · have hne : 31 ≠ i := by omega
    rw [Nat.testBit_two_pow_of_ne hne]
    simp [hi]
  · have hid : id.testBit i = false := by
      apply Nat.testBit_lt_two_pow
      calc id < 2 ^ 31 := h
        _ ≤ 2 ^ i := Nat.pow_le_pow_right (by omega) (by omega)
    simp [hi, hid]

theorem eraseFirstId_append_fresh {α : Type} (k : Nat) (x : α) :
    ∀ (l : List (Nat × α)), (∀ p ∈ l, p.1 ≠ k) →
      eraseFirstId (l ++ [(k, x)]) k = (true, l) := by
  intro l
  induction l with
  | nil => intro _; simp [eraseFirstId]
  | cons p rest ih =>
    intro h
    have hp : ¬ p.1 = k := h p (List.mem_cons_self p rest)
    simp only [List.cons_append, eraseFirstId, if_neg hp, List.append_eq]
    rw [ih (fun q hq => h q (List.mem_cons_of_mem p hq))]

theorem eraseFirstId_fresh {α : Type} (k : Nat) :
    ∀ (l : List (Nat × α)), (∀ p ∈ l, p.1 ≠ k) →
      eraseFirstId l k = (false, l) := by
  intro l
  induction l with
  | nil => intro _; rfl
  | cons p rest ih =>
    intro h
    have hp : ¬ p.1 = k := h p (List.mem_cons_self p rest)
    simp only [eraseFirstId, if_neg hp]
    rw [ih (fun q hq => h q (List.mem_cons_of_mem p hq))]

theorem filter_ne_fresh {k : Nat} : ∀ (l : List Nat), k ∉ l →
    l.filter (fun x => !decide (x = k)) = l := by
  intro l hl
  apply List.filter_eq_self.mpr
  intro a ha
  simp only [Bool.not_eq_true', decide_eq_false_iff_not]
  intro he
  exact hl (he ▸ ha)

theorem filter_ne_append_fresh {k : Nat} (l : List Nat) (h : k ∉ l) :
    (l ++ [k]).filter (fun x => !decide (x = k)) = l := by
  rw [List.filter_append, filter_ne_fresh l h]
  simp

theorem delete_fresh_rule_aux (s : VMState) (hwf : WF s) (r : EngineRule) (icb : List Nat)
    (hicb : icb.filter (fun x => !decide (x = s.engine.nextId)) = s.instrCBInfos) :
    VMState.deleteInstrumentation
      { s with
        engine := ⟨s.engine.rules ++ [(s.engine.nextId, r)], s.engine.events, s.engine.nextId + 1⟩
        instrCBInfos := icb }
      s.engine.nextId
    = (true, { s with engine := ⟨s.engine.rules, s.engine.events, s.engine.nextId + 1⟩ }) := by
  have hmask := and_mask_eq_zero_of_lt hwf.nextLt
  have hrules : ∀ p ∈ s.engine.rules, p.1 ≠ s.engine.nextId :=
    fun p hp => Nat.ne_of_lt (hwf.rulesBelow p hp)
  have herase := eraseFirstId_append_fresh s.engine.nextId r s.engine.rules hrules
  unfold VMState.deleteInstrumentation
  rw [if_neg (by simp [hmask])]
  simp [Engine.deleteInstrumentation, herase, hicb]

theorem delete_fresh_event_aux (s : VMState) (hwf : WF s) (mask : Nat) :
    VMState.deleteInstrumentation
      { s with
        engine := ⟨s.engine.rules, s.engine.events ++ [(s.engine.nextId, mask)], s.engine.nextId + 1⟩ }
      s.engine.nextId
    = (true, { s with engine := ⟨s.engine.rules, s.engine.events, s.engine.nextId + 1⟩ }) := by
  have hmask := and_mask_eq_zero_of_lt hwf.nextLt
  have hrules : ∀ p ∈ s.engine.rules, p.1 ≠ s.engine.nextId :=
    fun p hp => Nat.ne_of_lt (hwf.rulesBelow p hp)
  have hevents : ∀ p ∈ s.engine.events, p.1 ≠ s.engine.nextId :=
    fun p hp => Nat.ne_of_lt (hwf.eventsBelow p hp)
  have hinstr : s.engine.nextId ∉ s.instrCBInfos :=
    fun hc => Nat.lt_irrefl _ (hwf.instrBelow _ hc)
  have herase1 := eraseFirstId_fresh s.engine.nextId s.engine.rules hrules
  have herase2 := eraseFirstId_append_fresh s.engine.nextId mask s.engine.events hevents
  have hfilter := filter_ne_fresh s.instrCBInfos hinstr
  unfold VMState.deleteInstrumentation
  rw [if_neg (by simp [hmask])]
  simp [Engine.deleteInstrumentation, herase1, herase2, hfilter]

theorem delete_absent_fix (t : VMState) (k : Nat) (hk : k < EVENTID_VIRTCB_MASK)
    (hr : ∀ p ∈ t.engine.rules, p.1 ≠ k) (hv : ∀ p ∈ t.engine.events, p.1 ≠ k)
    (hi : k ∉ t.instrCBInfos) :
    t.deleteInstrumentation k = (false, t) := by
  have hmask := and_mask_eq_zero_of_lt hk
  have herase1 := eraseFirstId_fresh k t.engine.rules hr
  have herase2 := eraseFirstId_fresh k t.engine.events hv
  have hfilter := filter_ne_fresh t.instrCBInfos hi
  unfold VMState.deleteInstrumentation
  rw [if_neg (by simp [hmask])]
  simp [Engine.deleteInstrumentation, herase1, herase2, hfilter]

theorem delete_virt_found (t : VMState) (id : Nat) (hid : id < EVENTID_VIRTCB_MASK)
    (hmem : ∀ p ∈ t.memCBInfos, p.1 ≠ id) (info : MemCBInfo InstCB) :
    VMState.deleteInstrumentation { t with memCBInfos := t.memCBInfos ++ [(id, info)] }
      (id ||| EVENTID_VIRTCB_MASK)
    = (true, t) := by
  have herase := eraseFirstId_append_fresh id info t.memCBInfos hmem
  unfold VMState.deleteInstrumentation
  rw [if_pos or_mask_and_mask]
  simp [or_mask_low hid, herase]

theorem delete_virt_absent (t : VMState) (id : Nat) (hid : id < EVENTID_VIRTCB_MASK)
    (hmem : ∀ p ∈ t.memCBInfos, p.1 ≠ id) :
    t.deleteInstrumentation (id ||| EVENTID_VIRTCB_MASK) = (false, t) := by
  have herase := eraseFirstId_fresh id t.memCBInfos hmem
  unfold VMState.deleteInstrumentation
  rw [if_pos or_mask_and_mask]
  simp [or_mask_low hid, herase]

theorem recordMemoryAccess_fields (s : VMState) (cfg : Cfg) (type : Nat) :
    (s.recordMemoryAccess cfg type).2.memCBInfos = s.memCBInfos ∧
    (s.recordMemoryAccess cfg type).2.memCBID = s.memCBID ∧
    (s.recordMemoryAccess cfg type).2.instrCBInfos = s.instrCBInfos ∧
    (s.recordMemoryAccess cfg type).2.memReadGateCBID = s.memReadGateCBID ∧
    (s.recordMemoryAccess cfg type).2.memWriteGateCBID = s.memWriteGateCBID := by
  unfold VMState.recordMemoryAccess
  dsimp only
  split_ifs <;> exact ⟨rfl, rfl, rfl, rfl, rfl⟩

theorem addMemAccessCB_fields (s : VMState) (cfg : Cfg) (type : Nat) (cbk : Option InstCB) :
    (s.addMemAccessCB cfg type cbk).2.memCBInfos = s.memCBInfos ∧
    (s.addMemAccessCB cfg type cbk).2.memCBID = s.memCBID ∧
    (s.addMemAccessCB cfg type cbk).2.instrCBInfos = s.instrCBInfos ∧
    (s.addMemAccessCB cfg type cbk).2.memReadGateCBID = s.memReadGateCBID ∧
    (s.addMemAccessCB cfg type cbk).2.memWriteGateCBID = s.memWriteGateCBID := by
  obtain ⟨h1, h2, h3, h4, h5⟩ := recordMemoryAccess_fields s cfg type
  cases cbk with
  | none => exact ⟨rfl, rfl, rfl, rfl, rfl⟩
  | some c =>
    unfold VMState.addMemAccessCB
    split_ifs <;> exact ⟨h1, h2, h3, h4, h5⟩

theorem installReadGate_fields (s : VMState) (cfg : Cfg) (type : Nat) :
    (s.installReadGate cfg type).memCBInfos = s.memCBInfos ∧
    (s.installReadGate cfg type).memCBID = s.memCBID ∧
    (s.installReadGate cfg type).instrCBInfos = s.instrCBInfos := by
  obtain ⟨a1, a2, a3, _, _⟩ := addMemAccessCB_fields s cfg MEMORY_READ (some .gateRead)
  unfold VMState.installReadGate
  split_ifs with h
  · exact ⟨a1, a2, a3⟩
  · exact ⟨rfl, rfl, rfl⟩

theorem installWriteGate_fields (s : VMState) (cfg : Cfg) (type : Nat) :
    (s.installWriteGate cfg type).memCBInfos = s.memCBInfos ∧
    (s.installWriteGate cfg type).memCBID = s.memCBID ∧
    (s.installWriteGate cfg type).instrCBInfos = s.instrCBInfos := by
  obtain ⟨a1, a2, a3, _, _⟩ := addMemAccessCB_fields s cfg MEMORY_READ_WRITE (some .gateWrite)
  unfold VMState.installWriteGate
  split_ifs with h
  · exact ⟨a1, a2, a3⟩
  · exact ⟨rfl, rfl, rfl⟩

theorem memRangeGates_fields (s : VMState) (cfg : Cfg) (type : Nat) :
    (s.memRangeGates cfg type).memCBInfos = s.memCBInfos ∧
    (s.memRangeGates cfg type).memCBID = s.memCBID ∧
    (s.memRangeGates cfg type).instrCBInfos = s.instrCBInfos := by
  obtain ⟨a1, a2, a3⟩ := installReadGate_fields s cfg type
  obtain ⟨b1, b2, b3⟩ := installWriteGate_fields (s.installReadGate cfg type) cfg type
  exact ⟨a1 ▸ b1, a2 ▸ b2, a3 ▸ b3⟩

theorem instr_not_mem (s : VMState) (hwf : WF s) : s.engine.nextId ∉ s.instrCBInfos :=
  fun hc => Nat.lt_irrefl _ (hwf.instrBelow _ hc)

theorem rules_ne_next (s : VMState) (hwf : WF s) :
    ∀ p ∈ s.engine.rules, p.1 ≠ s.engine.nextId :=
  fun p hp => Nat.ne_of_lt (hwf.rulesBelow p hp)

theorem events_ne_next (s : VMState) (hwf : WF s) :
    ∀ p ∈ s.engine.events, p.1 ≠ s.engine.nextId :=
  fun p hp => Nat.ne_of_lt (hwf.eventsBelow p hp)

theorem c1_rule_case (s : VMState) (hwf : WF s) (r : EngineRule) :
    ((VMState.deleteInstrumentation
        { s with
          engine := ⟨s.engine.rules ++ [(s.engine.nextId, r)], s.engine.events, s.engine.nextId + 1⟩ }
        s.engine.nextId).1 = true)
    ∧ (VMState.deleteInstrumentation
        (VMState.deleteInstrumentation
          { s with
            engine := ⟨s.engine.rules ++ [(s.engine.nextId, r)], s.engine.events, s.engine.nextId + 1⟩ }
          s.engine.nextId).2
        s.engine.nextId
      = (false,
        (VMState.deleteInstrumentation
          { s with
            engine := ⟨s.engine.rules ++ [(s.engine.nextId, r)], s.engine.events, s.engine.nextId + 1⟩ }
          s.engine.nextId).2)) := by
  have h1 := delete_fresh_rule_aux s hwf r s.instrCBInfos (filter_ne_fresh _ (instr_not_mem s hwf))
  constructor
  · rw [h1]
  · rw [h1]
    exact delete_absent_fix _ _ hwf.nextLt (rules_ne_next s hwf) (events_ne_next s hwf)
      (instr_not_mem s hwf)

theorem c1_ruleC_case (s : VMState) (hwf : WF s) (r : EngineRule) :
    ((VMState.deleteInstrumentation
        { s with
          engine := ⟨s.engine.rules ++ [(s.engine.nextId, r)], s.engine.events, s.engine.nextId + 1⟩
          instrCBInfos := s.instrCBInfos ++ [s.engine.nextId] }
        s.engine.nextId).1 = true)
    ∧ (VMState.deleteInstrumentation
        (VMState.deleteInstrumentation
          { s with
            engine := ⟨s.engine.rules ++ [(s.engine.nextId, r)], s.engine.events, s.engine.nextId + 1⟩
            instrCBInfos := s.instrCBInfos ++ [s.engine.nextId] }
          s.engine.nextId).2
        s.engine.nextId
      = (false,
        (VMState.deleteInstrumentation
          { s with
            engine := ⟨s.engine.rules ++ [(s.engine.nextId, r)], s.engine.events, s.engine.nextId + 1⟩
            instrCBInfos := s.instrCBInfos ++ [s.engine.nextId] }
          s.engine.nextId).2)) := by
  have h1 := delete_fresh_rule_aux s hwf r (s.instrCBInfos ++ [s.engine.nextId])
    (filter_ne_append_fresh _ (instr_not_mem s hwf))
  constructor
  · rw [h1]
  · rw [h1]
    exact delete_absent_fix _ _ hwf.nextLt (rules_ne_next s hwf) (events_ne_next s hwf)
      (instr_not_mem s hwf)

theorem c1_event_case (s : VMState) (hwf : WF s) (mask : Nat) :
    ((VMState.deleteInstrumentation
        { s with
          engine := ⟨s.engine.rules, s.engine.events ++ [(s.engine.nextId, mask)], s.engine.nextId + 1⟩ }
        s.engine.nextId).1 = true)
    ∧ (VMState.deleteInstrumentation
        (VMState.deleteInstrumentation
          { s with
            engine := ⟨s.engine.rules, s.engine.events ++ [(s.engine.nextId, mask)], s.engine.nextId + 1⟩ }
          s.engine.nextId).2
        s.engine.nextId
      = (false,
        (VMState.deleteInstrumentation
          { s with
            engine := ⟨s.engine.rules, s.engine.events ++ [(s.engine.nextId, mask)], s.engine.nextId + 1⟩ }
          s.engine.nextId).2)) := by
  have h1 := delete_fresh_event_aux s hwf mask
  constructor
  · rw [h1]
  · rw [h1]
    exact delete_absent_fix _ _ hwf.nextLt (rules_ne_next s hwf) (events_ne_next s hwf)
      (instr_not_mem s hwf)

theorem c1_memRange_case (s : VMState) (hwf : WF s) (cfg : Cfg) (a b t : Nat) (c : InstCB)
    (hk : (s.addMemRangeCB cfg a b t (some c)).1 ≠ INVALID_EVENTID) :
    (((s.addMemRangeCB cfg a b t (some c)).2.deleteInstrumentation
        (s.addMemRangeCB cfg a b t (some c)).1).1 = true)
    ∧ (VMState.deleteInstrumentation
        ((s.addMemRangeCB cfg a b t (some c)).2.deleteInstrumentation
          (s.addMemRangeCB cfg a b t (some c)).1).2
        (s.addMemRangeCB cfg a b t (some c)).1
      = (false,
        ((s.addMemRangeCB cfg a b t (some c)).2.deleteInstrumentation
          (s.addMemRangeCB cfg a b t (some c)).1).2)) := by
  by_cases h1 : ¬ a < b
  · exfalso
    apply hk
    unfold VMState.addMemRangeCB
    rw [if_pos h1]
  by_cases h2 : t &&& MEMORY_READ_WRITE = 0
  · exfalso
    apply hk
    unfold VMState.addMemRangeCB
    rw [if_neg h1, if_pos h2]
  obtain ⟨g1, g2, g3⟩ := memRangeGates_fields s cfg t
  by_cases h3 : ¬ (s.memRangeGates cfg t).memCBID < EVENTID_VIRTCB_MASK
  · exfalso
    apply hk
    unfold VMState.addMemRangeCB
    rw [if_neg h1, if_neg h2]
    dsimp only
    rw [if_pos h3]
  have hid : (s.memRangeGates cfg t).memCBID < EVENTID_VIRTCB_MASK := not_not.mp h3
  have hshape : s.addMemRangeCB cfg a b t (some c)
      = ((s.memRangeGates cfg t).memCBID ||| EVENTID_VIRTCB_MASK,
         { s.memRangeGates cfg t with
             memCBID := (s.memRangeGates cfg t).memCBID + 1
             memCBInfos := (s.memRangeGates cfg t).memCBInfos
               ++ [((s.memRangeGates cfg t).memCBID, ⟨t, ⟨a, b⟩, c⟩)] }) := by
    unfold VMState.addMemRangeCB
    rw [if_neg h1, if_neg h2]
    dsimp only
    rw [if_neg h3]
  have hmem1 : ∀ p ∈ (s.memRangeGates cfg t).memCBInfos, p.1 ≠ (s.memRangeGates cfg t).memCBID := by
    rw [g1, g2]
    exact fun p hp => Nat.ne_of_lt (hwf.memBelow p hp)
  have hd1 :
      VMState.deleteInstrumentation
        { s.memRangeGates cfg t with
            memCBID := (s.memRangeGates cfg t).memCBID + 1
            memCBInfos := (s.memRangeGates cfg t).memCBInfos
              ++ [((s.memRangeGates cfg t).memCBID, ⟨t, ⟨a, b⟩, c⟩)] }
        ((s.memRangeGates cfg t).memCBID ||| EVENTID_VIRTCB_MASK)
      = (true, { s.memRangeGates cfg t with memCBID := (s.memRangeGates cfg t).memCBID + 1 }) :=
    delete_virt_found
      { s.memRangeGates cfg t with memCBID := (s.memRangeGates cfg t).memCBID + 1 }
      (s.memRangeGates cfg t).memCBID hid hmem1 ⟨t, ⟨a, b⟩, c⟩
  have hd2 :
      VMState.deleteInstrumentation
        { s.memRangeGates cfg t with memCBID := (s.memRangeGates cfg t).memCBID + 1 }
        ((s.memRangeGates cfg t).memCBID ||| EVENTID_VIRTCB_MASK)
      = (false, { s.memRangeGates cfg t with memCBID := (s.memRangeGates cfg t).memCBID + 1 }) :=
    delete_virt_absent
      { s.memRangeGates cfg t with memCBID := (s.memRangeGates cfg t).memCBID + 1 }
      (s.memRangeGates cfg t).memCBID hid hmem1
  rw [hshape]
  dsimp only
  rw [hd1]
  dsimp only
  exact ⟨rfl, hd2⟩

/-- C1: every registration operation returning an id k distinct from
INVALID_EVENTID (addCodeCB, addCodeAddrCB, addCodeRangeCB, addMnemonicCB,
addMemRangeCB, addMemAddrCB, addVMEventCB, addInstrRule and its C and range
variants) is deleted exactly once: on the resulting state the first
deleteInstrumentation(k) returns true, and deleting k again on the state it
leaves returns false and changes nothing, so every subsequent
deleteInstrumentation(k) without re-registration returns false. -/
theorem registered_id_roundtrip (cfg : Cfg) (op : RegOp) (s : VMState) (hwf : WF s)
    (hk : (applyReg cfg op s).1 ≠ INVALID_EVENTID) :
    (((applyReg cfg op s).2.deleteInstrumentation (applyReg cfg op s).1).1 = true)
    ∧ (VMState.deleteInstrumentation
        ((applyReg cfg op s).2.deleteInstrumentation (applyReg cfg op s).1).2
        (applyReg cfg op s).1
      = (false,
        ((applyReg cfg op s).2.deleteInstrumentation (applyReg cfg op s).1).2)) := by
  cases op with
  | codeCB pos cbk =>
    cases cbk with
    | none => exact absurd rfl hk
    | some c => exact c1_rule_case s hwf (.basic ⟨.condTrue, c, pos, true⟩)
  | codeAddrCB a pos cbk =>
    cases cbk with
    | none => exact absurd rfl hk
    | some c => exact c1_rule_case s hwf (.basic ⟨.addressIs a, c, pos, true⟩)
  | codeRangeCB a b pos cbk =>
    cases cbk with
    | none =>
      by_cases h1 : ¬ a < b
      · exfalso
        apply hk
        show (VMState.addCodeRangeCB s a b pos none).1 = INVALID_EVENTID
        unfold VMState.addCodeRangeCB
        rw [if_pos h1]
      · exfalso
        apply hk
        show (VMState.addCodeRangeCB s a b pos none).1 = INVALID_EVENTID
        unfold VMState.addCodeRangeCB
        rw [if_neg h1]
    | some c =>
      by_cases h1 : ¬ a < b
      · exfalso
        apply hk
        show (VMState.addCodeRangeCB s a b pos (some c)).1 = INVALID_EVENTID
        unfold VMState.addCodeRangeCB
        rw [if_pos h1]
      · have hshape : VMState.addCodeRangeCB s a b pos (some c)
            = (s.engine.nextId,
               { s with
                 engine := ⟨s.engine.rules
                     ++ [(s.engine.nextId, .basic ⟨.instructionInRange a b, c, pos, true⟩)],
                   s.engine.events, s.engine.nextId + 1⟩ }) := by
          unfold VMState.addCodeRangeCB
          rw [if_neg h1]
          rfl
        have hshape2 : applyReg cfg (.codeRangeCB a b pos (some c)) s
            = (s.engine.nextId,
               { s with
                 engine := ⟨s.engine.rules
                     ++ [(s.engine.nextId, .basic ⟨.instructionInRange a b, c, pos, true⟩)],
                   s.engine.events, s.engine.nextId + 1⟩ }) := hshape
        rw [hshape2]
        exact c1_rule_case s hwf (.basic ⟨.instructionInRange a b, c, pos, true⟩)
  | mnemonicCB m pos cbk =>
    cases m with
    | none => exact absurd rfl hk
    | some mn =>
      cases cbk with
      | none => exact absurd rfl hk
      | some c => exact c1_rule_case s hwf (.basic ⟨.mnemonicIs mn, c, pos, true⟩)
  | memRangeCB a b t cbk =>
    cases cbk with
    | none =>
      exfalso
      apply hk
      show (VMState.addMemRangeCB s cfg a b t none).1 = INVALID_EVENTID
      unfold VMState.addMemRangeCB
      split_ifs <;> rfl
    | some c => exact c1_memRange_case s hwf cfg a b t c hk
  | memAddrCB a t cbk =>
    cases cbk with
    | none => exact absurd rfl hk
    | some c => exact c1_memRange_case s hwf cfg a ((a + 1) % 18446744073709551616) t c hk
  | vmEventCB mask cbk =>
    by_cases hm : mask = 0
    · exfalso
      apply hk
      show (VMState.addVMEventCB s mask cbk).1 = INVALID_EVENTID
      unfold VMState.addVMEventCB
      rw [if_pos hm]
    · cases cbk with
      | none =>
        exfalso
        apply hk
        show (VMState.addVMEventCB s mask none).1 = INVALID_EVENTID
        unfold VMState.addVMEventCB
        rw [if_neg hm]
      | some c =>
        have hshape : VMState.addVMEventCB s mask (some c)
            = (s.engine.nextId,
               { s with
                 engine := ⟨s.engine.rules, s.engine.events ++ [(s.engine.nextId, mask)],
                   s.engine.nextId + 1⟩ }) := by
          unfold VMState.addVMEventCB
          rw [if_neg hm]
          rfl
        have hshape2 : applyReg cfg (.vmEventCB mask (some c)) s
            = (s.engine.nextId,
               { s with
                 engine := ⟨s.engine.rules, s.engine.events ++ [(s.engine.nextId, mask)],
                   s.engine.nextId + 1⟩ }) := hshape
        rw [hshape2]
        exact c1_event_case s hwf mask
  | instrRule => exact c1_rule_case s hwf (.user 0 18446744073709551615)
  | instrRuleC => exact c1_ruleC_case s hwf (.user 0 18446744073709551615)
  | instrRuleRange a b => exact c1_rule_case s hwf (.user a b)
  | instrRuleRangeC a b => exact c1_ruleC_case s hwf (.user a b)

/-- Witness for C1: registering a code callback on the fresh VM yields id 0;
deleting it returns true and deleting again returns false. -/
theorem registered_id_roundtrip_witness :
    let cfg : Cfg := ⟨[], []⟩
    let op : RegOp := .codeCB .PREINST (some (.const .CONTINUE))
    (((applyReg cfg op initVM).2.deleteInstrumentation (applyReg cfg op initVM).1).1 = true)
    ∧ (VMState.deleteInstrumentation
        ((applyReg cfg op initVM).2.deleteInstrumentation (applyReg cfg op initVM).1).2
        (applyReg cfg op initVM).1
      = (false,
        ((applyReg cfg op initVM).2.deleteInstrumentation (applyReg cfg op initVM).1).2)) :=
  registered_id_roundtrip ⟨[], []⟩ (.codeCB .PREINST (some (.const .CONTINUE))) initVM WF_init
    (by intro h; simp [applyReg, VMState.addCodeCB, Engine.addInstrRule, initVM,
      INVALID_EVENTID] at h)

theorem type_mask_zero {t : Nat} (h : t &&& MEMORY_READ_WRITE = 0) :
    t &&& MEMORY_READ = 0 ∧ t &&& MEMORY_WRITE = 0
      ∧ t ≠ MEMORY_READ ∧ t ≠ MEMORY_WRITE ∧ t ≠ MEMORY_READ_WRITE := by
  have h0 : t.testBit 0 = false := by
    have hb := congrArg (fun n => Nat.testBit n 0) h
    simp only [Nat.testBit_land, Nat.zero_testBit] at hb
    have h3 : Nat.testBit MEMORY_READ_WRITE 0 = true := by decide
    rw [h3, Bool.and_true] at hb
    exact hb
  have h1 : t.testBit 1 = false := by
    have hb := congrArg (fun n => Nat.testBit n 1) h
    simp only [Nat.testBit_land, Nat.zero_testBit] at hb
    have h3 : Nat.testBit MEMORY_READ_WRITE 1 = true := by decide
    rw [h3, Bool.and_true] at hb
    exact hb
  refine ⟨?_, ?_, ?_, ?_, ?_⟩
  · rw [show MEMORY_READ = 2 ^ 0 by norm_num [MEMORY_READ]]
    rw [Nat.and_two_pow, h0]
    rfl
  · rw [show MEMORY_WRITE = 2 ^ 1 by norm_num [MEMORY_WRITE]]
    rw [Nat.and_two_pow, h1]
    rfl
  · intro he
    rw [he] at h
    exact absurd h (by decide)
  · intro he
    rw [he] at h
    exact absurd h (by decide)
  · intro he
    rw [he] at h
    exact absurd h (by decide)

theorem recordMemoryAccess_noop (s : VMState) (cfg : Cfg) {t : Nat}
    (h : t &&& MEMORY_READ_WRITE = 0) :
    s.recordMemoryAccess cfg t = (true, s) := by
  obtain ⟨e1, e2, _, _, _⟩ := type_mask_zero h
  unfold VMState.recordMemoryAccess
  dsimp only
  split_ifs with hA hB hB <;>
    first
      | rfl
      | exact absurd e1 hA.1
      | exact absurd e2 hB.1

/-- C2: each registration operation rejects an invalid argument by returning
INVALID_EVENTID and leaving the state unchanged (no callback registered): a
null callback for addCodeCB, addCodeAddrCB, addCodeRangeCB, addMnemonicCB,
addMemRangeCB, addMemAddrCB, addMemAccessCB and addVMEventCB; an inverted or
empty range (stop less than or equal to start) for addCodeRangeCB and
addMemRangeCB; a zero VMEvent mask for addVMEventCB; and a memory-access
type with no MEMORY_READ_WRITE bit for addMemRangeCB and addMemAccessCB. -/
theorem invalid_argument_rejection :
    (∀ (s : VMState) (pos : InstPosition), s.addCodeCB pos none = (INVALID_EVENTID, s))
    ∧ (∀ (s : VMState) (a : Nat) (pos : InstPosition),
        s.addCodeAddrCB a pos none = (INVALID_EVENTID, s))
    ∧ (∀ (s : VMState) (a b : Nat) (pos : InstPosition),
        s.addCodeRangeCB a b pos none = (INVALID_EVENTID, s))
    ∧ (∀ (s : VMState) (a b : Nat) (pos : InstPosition) (cbk : Option InstCB), b ≤ a →
        s.addCodeRangeCB a b pos cbk = (INVALID_EVENTID, s))
    ∧ (∀ (s : VMState) (m : String) (pos : InstPosition),
        s.addMnemonicCB (some m) pos none = (INVALID_EVENTID, s))
    ∧ (∀ (s : VMState) (cfg : Cfg) (a b t : Nat),
        s.addMemRangeCB cfg a b t none = (INVALID_EVENTID, s))
    ∧ (∀ (s : VMState) (cfg : Cfg) (a b t : Nat) (cbk : Option InstCB), b ≤ a →
        s.addMemRangeCB cfg a b t cbk = (INVALID_EVENTID, s))
    ∧ (∀ (s : VMState) (cfg : Cfg) (a b t : Nat) (cbk : Option InstCB),
        t &&& MEMORY_READ_WRITE = 0 →
        s.addMemRangeCB cfg a b t cbk = (INVALID_EVENTID, s))
    ∧ (∀ (s : VMState) (cfg : Cfg) (a t : Nat),
        s.addMemAddrCB cfg a t none = (INVALID_EVENTID, s))
    ∧ (∀ (s : VMState) (cfg : Cfg) (t : Nat),
        s.addMemAccessCB cfg t none = (INVALID_EVENTID, s))
    ∧ (∀ (s : VMState) (cfg : Cfg) (t : Nat) (cbk : Option InstCB),
        t &&& MEMORY_READ_WRITE = 0 →
        s.addMemAccessCB cfg t cbk = (INVALID_EVENTID, s))
    ∧ (∀ (s : VMState) (mask : Nat), s.addVMEventCB mask none = (INVALID_EVENTID, s))
    ∧ (∀ (s : VMState) (cbk : Option InstCB), s.addVMEventCB 0 cbk = (INVALID_EVENTID, s)) := by
  refine ⟨?_, ?_, ?_, ?_, ?_, ?_, ?_, ?_, ?_, ?_, ?_, ?_, ?_⟩
  · intro s pos
    rfl
  · intro s a pos
    rfl
  · intro s a b pos
    unfold VMState.addCodeRangeCB
    split_ifs <;> rfl
  · intro s a b pos cbk hba
    unfold VMState.addCodeRangeCB
    rw [if_pos (by omega)]
  · intro s m pos
    rfl
  · intro s cfg a b t
    unfold VMState.addMemRangeCB
    split_ifs <;> rfl
  · intro s cfg a b t cbk hba
    unfold VMState.addMemRangeCB
    rw [if_pos (by omega)]
  · intro s cfg a b t cbk ht
    unfold VMState.addMemRangeCB
    by_cases h1 : ¬ a < b
    · rw [if_pos h1]
    · rw [if_neg h1, if_pos ht]
  · intro s cfg a t
    rfl
  · intro s cfg t
    rfl
  · intro s cfg t cbk ht
    obtain ⟨e1, e2, n1, n2, n3⟩ := type_mask_zero ht
    cases cbk with
    | none => rfl
    | some c =>
      unfold VMState.addMemAccessCB
      rw [recordMemoryAccess_noop s cfg ht]
      dsimp only
      rw [if_neg n1, if_neg n2, if_neg n3]
  · intro s mask
    unfold VMState.addVMEventCB
    split_ifs <;> rfl
  · intro s cbk
    unfold VMState.addVMEventCB
    rw [if_pos rfl]

/-- Witness for C2 at concrete inputs on the fresh VM: an inverted code
range, a zero-typed memory range, a zero VMEvent mask and a null memory
callback are all rejected without touching the state. -/
theorem invalid_argument_rejection_witness :
    ((5 : Nat) ≤ 7 ∧ (0 : Nat) &&& MEMORY_READ_WRITE = 0)
    ∧ initVM.addCodeRangeCB 7 5 .PREINST (some (.const .CONTINUE)) = (INVALID_EVENTID, initVM)
    ∧ initVM.addMemRangeCB ⟨[], []⟩ 0 8 0 (some (.const .CONTINUE)) = (INVALID_EVENTID, initVM)
    ∧ initVM.addVMEventCB 0 (some (.const .CONTINUE)) = (INVALID_EVENTID, initVM)
    ∧ initVM.addMemAccessCB ⟨[], []⟩ MEMORY_READ none = (INVALID_EVENTID, initVM) := by
  refine ⟨⟨by decide, by decide⟩, ?_, ?_, ?_, ?_⟩
  · exact invalid_argument_rejection.2.2.2.1 initVM 7 5 .PREINST (some (.const .CONTINUE))
      (by decide)
  · exact invalid_argument_rejection.2.2.2.2.2.2.2.1 initVM ⟨[], []⟩ 0 8 0
      (some (.const .CONTINUE)) (by decide)
  · exact invalid_argument_rejection.2.2.2.2.2.2.2.2.2.2.2.2 initVM (some (.const .CONTINUE))
  · exact invalid_argument_rejection.2.2.2.2.2.2.2.2.2.1 initVM ⟨[], []⟩ MEMORY_READ

theorem testBit31_of_lt {k : Nat} (h : k < EVENTID_VIRTCB_MASK) :
    Nat.testBit k 31 = false := by
  rw [mask_eq_two_pow] at h
  exact Nat.testBit_lt_two_pow h

theorem testBit31_or (id : Nat) :
    Nat.testBit (id ||| EVENTID_VIRTCB_MASK) 31 = true := by
  rw [mask_eq_two_pow, Nat.testBit_lor, Nat.testBit_two_pow_self]
  simp

theorem c4_rule_case (s : VMState) (hwf : WF s) (r : EngineRule) :
    ((VMState.deleteInstrumentation
        { s with
          engine := ⟨s.engine.rules ++ [(s.engine.nextId, r)], s.engine.events, s.engine.nextId + 1⟩ }
        s.engine.nextId).1 = true)
    ∧ ((VMState.deleteInstrumentation
        { s with
          engine := ⟨s.engine.rules ++ [(s.engine.nextId, r)], s.engine.events, s.engine.nextId + 1⟩ }
        s.engine.nextId).2.memCBInfos = s.memCBInfos)
    ∧ ((s.engine.rules ++ [(s.engine.nextId, r)]).length
        = ((VMState.deleteInstrumentation
            { s with
              engine := ⟨s.engine.rules ++ [(s.engine.nextId, r)], s.engine.events, s.engine.nextId + 1⟩ }
            s.engine.nextId).2.engine.rules).length + 1) := by
  have h1 := delete_fresh_rule_aux s hwf r s.instrCBInfos (filter_ne_fresh _ (instr_not_mem s hwf))
  rw [h1]
  refine ⟨rfl, rfl, ?_⟩
  simp

theorem c4_ruleC_case (s : VMState) (hwf : WF s) (r : EngineRule) :
    ((VMState.deleteInstrumentation
        { s with
          engine := ⟨s.engine.rules ++ [(s.engine.nextId, r)], s.engine.events, s.engine.nextId + 1⟩
          instrCBInfos := s.instrCBInfos ++ [s.engine.nextId] }
        s.engine.nextId).1 = true)
    ∧ ((VMState.deleteInstrumentation
        { s with
          engine := ⟨s.engine.rules ++ [(s.engine.nextId, r)], s.engine.events, s.engine.nextId + 1⟩
          instrCBInfos := s.instrCBInfos ++ [s.engine.nextId] }
        s.engine.nextId).2.memCBInfos = s.memCBInfos)
    ∧ ((s.engine.rules ++ [(s.engine.nextId, r)]).length
        = ((VMState.deleteInstrumentation
            { s with
              engine := ⟨s.engine.rules ++ [(s.engine.nextId, r)], s.engine.events, s.engine.nextId + 1⟩
              instrCBInfos := s.instrCBInfos ++ [s.engine.nextId] }
            s.engine.nextId).2.engine.rules).length + 1) := by
  have h1 := delete_fresh_rule_aux s hwf r (s.instrCBInfos ++ [s.engine.nextId])
    (filter_ne_append_fresh _ (instr_not_mem s hwf))
  rw [h1]
  refine ⟨rfl, rfl, ?_⟩
  simp

theorem c4_memRange_case (s : VMState) (hwf : WF s) (cfg : Cfg) (a b t : Nat) (c : InstCB)
    (hk : (s.addMemRangeCB cfg a b t (some c)).1 ≠ INVALID_EVENTID) :
    Nat.testBit (s.addMemRangeCB cfg a b t (some c)).1 31 = true
    ∧ (((s.addMemRangeCB cfg a b t (some c)).2.deleteInstrumentation
          (s.addMemRangeCB cfg a b t (some c)).1).1 = true)
    ∧ (((s.addMemRangeCB cfg a b t (some c)).2.deleteInstrumentation
          (s.addMemRangeCB cfg a b t (some c)).1).2.engine
        = (s.addMemRangeCB cfg a b t (some c)).2.engine)
    ∧ (((s.addMemRangeCB cfg a b t (some c)).2.memCBInfos).length
        = (((s.addMemRangeCB cfg a b t (some c)).2.deleteInstrumentation
            (s.addMemRangeCB cfg a b t (some c)).1).2.memCBInfos).length + 1) := by
  by_cases h1 : ¬ a < b
  · exfalso
    apply hk
    unfold VMState.addMemRangeCB
    rw [if_pos h1]
  by_cases h2 : t &&& MEMORY_READ_WRITE = 0
  · exfalso
    apply hk
    unfold VMState.addMemRangeCB
    rw [if_neg h1, if_pos h2]
  obtain ⟨g1, g2, g3⟩ := memRangeGates_fields s cfg t
  by_cases h3 : ¬ (s.memRangeGates cfg t).memCBID < EVENTID_VIRTCB_MASK
  · exfalso
    apply hk
    unfold VMState.addMemRangeCB
    rw [if_neg h1, if_neg h2]
    dsimp only
    rw [if_pos h3]
  have hid : (s.memRangeGates cfg t).memCBID < EVENTID_VIRTCB_MASK := not_not.mp h3
  have hshape : s.addMemRangeCB cfg a b t (some c)
      = ((s.memRangeGates cfg t).memCBID ||| EVENTID_VIRTCB_MASK,
         { s.memRangeGates cfg t with
             memCBID := (s.memRangeGates cfg t).memCBID + 1
             memCBInfos := (s.memRangeGates cfg t).memCBInfos
               ++ [((s.memRangeGates cfg t).memCBID, ⟨t, ⟨a, b⟩, c⟩)] }) := by
    unfold VMState.addMemRangeCB
    rw [if_neg h1, if_neg h2]
    dsimp only
    rw [if_neg h3]
  have hmem1 : ∀ p ∈ (s.memRangeGates cfg t).memCBInfos,
      p.1 ≠ (s.memRangeGates cfg t).memCBID := by
    rw [g1, g2]
    exact fun p hp => Nat.ne_of_lt (hwf.memBelow p hp)
  have hd1 :
      VMState.deleteInstrumentation
        { s.memRangeGates cfg t with
            memCBID := (s.memRangeGates cfg t).memCBID + 1
            memCBInfos := (s.memRangeGates cfg t).memCBInfos
              ++ [((s.memRangeGates cfg t).memCBID, ⟨t, ⟨a, b⟩, c⟩)] }
        ((s.memRangeGates cfg t).memCBID ||| EVENTID_VIRTCB_MASK)
      = (true, { s.memRangeGates cfg t with memCBID := (s.memRangeGates cfg t).memCBID + 1 }) :=
    delete_virt_found
      { s.memRangeGates cfg t with memCBID := (s.memRangeGates cfg t).memCBID + 1 }
      (s.memRangeGates cfg t).memCBID hid hmem1 ⟨t, ⟨a, b⟩, c⟩
  rw [hshape]
  dsimp only
  rw [hd1]
  refine ⟨testBit31_or _, rfl, rfl, ?_⟩
  simp

/-- C4: a successful memory-range registration (addMemRangeCB, addMemAddrCB)
returns an id with bit 31 set, every other successful registration returns an
id with bit 31 clear, and deleteInstrumentation dispatches on that bit: with
bit 31 set it removes one MemCBInfo registry entry and leaves the engine
untouched, with bit 31 clear (for the engine-rule registrations) it removes
one engine rule and leaves the MemCBInfo registry untouched. -/
theorem id_msb_dispatch (cfg : Cfg) (op : RegOp) (s : VMState) (hwf : WF s)
    (hk : (applyReg cfg op s).1 ≠ INVALID_EVENTID) :
    Nat.testBit (applyReg cfg op s).1 31 = op.isVirt
    ∧ (op.isVirt = true →
        (((applyReg cfg op s).2.deleteInstrumentation (applyReg cfg op s).1).1 = true)
        ∧ (((applyReg cfg op s).2.deleteInstrumentation (applyReg cfg op s).1).2.engine
            = (applyReg cfg op s).2.engine)
        ∧ (((applyReg cfg op s).2.memCBInfos).length
            = (((applyReg cfg op s).2.deleteInstrumentation
                (applyReg cfg op s).1).2.memCBInfos).length + 1))
    ∧ (op.isEngineRule = true →
        (((applyReg cfg op s).2.deleteInstrumentation (applyReg cfg op s).1).1 = true)
        ∧ (((applyReg cfg op s).2.deleteInstrumentation (applyReg cfg op s).1).2.memCBInfos
            = (applyReg cfg op s).2.memCBInfos)
        ∧ (((applyReg cfg op s).2.engine.rules).length
            = (((applyReg cfg op s).2.deleteInstrumentation
                (applyReg cfg op s).1).2.engine.rules).length + 1)) := by
  cases op with
  | codeCB pos cbk =>
    cases cbk with
    | none => exact absurd rfl hk
    | some c =>
      obtain ⟨d1, d2, d3⟩ := c4_rule_case s hwf (.basic ⟨.condTrue, c, pos, true⟩)
      exact ⟨testBit31_of_lt hwf.nextLt, fun h => Bool.noConfusion h,
        fun _ => ⟨d1, d2, d3⟩⟩
  | codeAddrCB a pos cbk =>
    cases cbk with
    | none => exact absurd rfl hk
    | some c =>
      obtain ⟨d1, d2, d3⟩ := c4_rule_case s hwf (.basic ⟨.addressIs a, c, pos, true⟩)
      exact ⟨testBit31_of_lt hwf.nextLt, fun h => Bool.noConfusion h,
        fun _ => ⟨d1, d2, d3⟩⟩
  | codeRangeCB a b pos cbk =>
    by_cases h1 : ¬ a < b
    · exfalso
      apply hk
      show (VMState.addCodeRangeCB s a b pos cbk).1 = INVALID_EVENTID
      unfold VMState.addCodeRangeCB
      rw [if_pos h1]
    cases cbk with
    | none =>
      exfalso
      apply hk
      show (VMState.addCodeRangeCB s a b pos none).1 = INVALID_EVENTID
      unfold VMState.addCodeRangeCB
      rw [if_neg h1]
    | some c =>
      have hshape2 : applyReg cfg (.codeRangeCB a b pos (some c)) s
          = (s.engine.nextId,
             { s with
               engine := ⟨s.engine.rules
                   ++ [(s.engine.nextId, .basic ⟨.instructionInRange a b, c, pos, true⟩)],
                 s.engine.events, s.engine.nextId + 1⟩ }) := by
        show VMState.addCodeRangeCB s a b pos (some c) = _
        unfold VMState.addCodeRangeCB
        rw [if_neg h1]
        rfl
      rw [hshape2]
      obtain ⟨d1, d2, d3⟩ := c4_rule_case s hwf (.basic ⟨.instructionInRange a b, c, pos, true⟩)
      exact ⟨testBit31_of_lt hwf.nextLt, fun h => Bool.noConfusion h,
        fun _ => ⟨d1, d2, d3⟩⟩
  | mnemonicCB m pos cbk =>
    cases m with
    | none => exact absurd rfl hk
    | some mn =>
      cases cbk with
      | none => exact absurd rfl hk
      | some c =>
        obtain ⟨d1, d2, d3⟩ := c4_rule_case s hwf (.basic ⟨.mnemonicIs mn, c, pos, true⟩)
        exact ⟨testBit31_of_lt hwf.nextLt, fun h => Bool.noConfusion h,
          fun _ => ⟨d1, d2, d3⟩⟩
  | memRangeCB a b t cbk =>
    cases cbk with
    | none =>
      exfalso
      apply hk
      show (VMState.addMemRangeCB s cfg a b t none).1 = INVALID_EVENTID
      unfold VMState.addMemRangeCB
      split_ifs <;> rfl
    | some c =>
      obtain ⟨m1, m2, m3, m4⟩ := c4_memRange_case s hwf cfg a b t c hk
      exact ⟨m1, fun _ => ⟨m2, m3, m4⟩, fun h => Bool.noConfusion h⟩
  | memAddrCB a t cbk =>
    cases cbk with
    | none => exact absurd rfl hk
    | some c =>
      obtain ⟨m1, m2, m3, m4⟩ :=
        c4_memRange_case s hwf cfg a ((a + 1) % 18446744073709551616) t c hk
      exact ⟨m1, fun _ => ⟨m2, m3, m4⟩, fun h => Bool.noConfusion h⟩
  | vmEventCB mask cbk =>
    by_cases hm : mask = 0
    · exfalso
      apply hk
      show (VMState.addVMEventCB s mask cbk).1 = INVALID_EVENTID
      unfold VMState.addVMEventCB
      rw [if_pos hm]
    cases cbk with
    | none =>
      exfalso
      apply hk
      show (VMState.addVMEventCB s mask none).1 = INVALID_EVENTID
      unfold VMState.addVMEventCB
      rw [if_neg hm]
    | some c =>
      have hshape2 : applyReg cfg (.vmEventCB mask (some c)) s
          = (s.engine.nextId,
             { s with
               engine := ⟨s.engine.rules, s.engine.events ++ [(s.engine.nextId, mask)],
                 s.engine.nextId + 1⟩ }) := by
        show VMState.addVMEventCB s mask (some c) = _
        unfold VMState.addVMEventCB
        rw [if_neg hm]
        rfl
      rw [hshape2]
      exact ⟨testBit31_of_lt hwf.nextLt, fun h => Bool.noConfusion h,
        fun h => Bool.noConfusion h⟩
  | instrRule =>
    obtain ⟨d1, d2, d3⟩ := c4_rule_case s hwf (.user 0 18446744073709551615)
    exact ⟨testBit31_of_lt hwf.nextLt, fun h => Bool.noConfusion h,
      fun _ => ⟨d1, d2, d3⟩⟩
  | instrRuleC =>
    obtain ⟨d1, d2, d3⟩ := c4_ruleC_case s hwf (.user 0 18446744073709551615)
    exact ⟨testBit31_of_lt hwf.nextLt, fun h => Bool.noConfusion h,
      fun _ => ⟨d1, d2, d3⟩⟩
  | instrRuleRange a b =>
    obtain ⟨d1, d2, d3⟩ := c4_rule_case s hwf (.user a b)
    exact ⟨testBit31_of_lt hwf.nextLt, fun h => Bool.noConfusion h,
      fun _ => ⟨d1, d2, d3⟩⟩
  | instrRuleRangeC a b =>
    obtain ⟨d1, d2, d3⟩ := c4_ruleC_case s hwf (.user a b)
    exact ⟨testBit31_of_lt hwf.nextLt, fun h => Bool.noConfusion h,
      fun _ => ⟨d1, d2, d3⟩⟩

/-- Witness for C4: a memory-range registration on the fresh VM yields an id
with bit 31 set and mem-side dispatch, a code registration yields bit 31
clear and engine-side dispatch. -/
theorem id_msb_dispatch_witness :
    (Nat.testBit (applyReg ⟨[], []⟩ (.memRangeCB 0 8 MEMORY_READ (some (.const .CONTINUE))) initVM).1 31
      = (RegOp.memRangeCB 0 8 MEMORY_READ (some (.const .CONTINUE))).isVirt)
    ∧ (Nat.testBit (applyReg ⟨[], []⟩ (.codeCB .PREINST (some (.const .CONTINUE))) initVM).1 31
      = (RegOp.codeCB .PREINST (some (.const .CONTINUE))).isVirt) :=
  ⟨(id_msb_dispatch ⟨[], []⟩ (.memRangeCB 0 8 MEMORY_READ (some (.const .CONTINUE))) initVM
      WF_init (by decide)).1,
   (id_msb_dispatch ⟨[], []⟩ (.codeCB .PREINST (some (.const .CONTINUE))) initVM
      WF_init (by decide)).1⟩

theorem foldl_addInstrRule_nextId (f : Nat → EngineRule) :
    ∀ (l : List Nat) (e : Engine),
      (l.foldl (fun e k => (e.addInstrRule (f k)).2) e).nextId = e.nextId + l.length := by
  intro l
  induction l with
  | nil => intro e; rfl
  | cons x l ih =>
    intro e
    rw [List.foldl_cons, ih]
    show e.nextId + 1 + l.length = e.nextId + (l.length + 1)
    omega

theorem record_nextId_le (s : VMState) (cfg : Cfg) (t : Nat) :
    (s.recordMemoryAccess cfg t).2.engine.nextId
      ≤ s.engine.nextId + cfg.shadowRead.length + cfg.shadowWrite.length := by
  unfold VMState.recordMemoryAccess
  dsimp only
  split_ifs <;>
    (try simp [foldl_addInstrRule_nextId EngineRule.shadowRead,
      foldl_addInstrRule_nextId EngineRule.shadowWrite]) <;>
    omega

theorem addMemAccessCB_gate_le (s : VMState) (cfg : Cfg) (c : InstCB) :
    (s.addMemAccessCB cfg MEMORY_READ (some c)).1
      ≤ s.engine.nextId + cfg.shadowRead.length + cfg.shadowWrite.length
    ∧ (s.addMemAccessCB cfg MEMORY_READ_WRITE (some c)).1
      ≤ s.engine.nextId + cfg.shadowRead.length + cfg.shadowWrite.length := by
  constructor
  · have h := record_nextId_le s cfg MEMORY_READ
    unfold VMState.addMemAccessCB
    dsimp only
    rw [if_pos (show MEMORY_READ = MEMORY_READ from rfl)]
    exact h
  · have h := record_nextId_le s cfg MEMORY_READ_WRITE
    unfold VMState.addMemAccessCB
    dsimp only
    rw [if_neg (show ¬ MEMORY_READ_WRITE = MEMORY_READ by decide),
      if_neg (show ¬ MEMORY_READ_WRITE = MEMORY_WRITE by decide),
      if_pos (show MEMORY_READ_WRITE = MEMORY_READ_WRITE from rfl)]
    exact h

theorem installReadGate_gates (s : VMState) (cfg : Cfg) (t : Nat)
    (hroom : s.engine.nextId + cfg.shadowRead.length + cfg.shadowWrite.length
      < EVENTID_VIRTCB_MASK) :
    (s.installReadGate cfg t).memWriteGateCBID = s.memWriteGateCBID
    ∧ (t = MEMORY_READ → (s.installReadGate cfg t).memReadGateCBID ≠ INVALID_EVENTID)
    ∧ (s.memReadGateCBID ≠ INVALID_EVENTID →
        (s.installReadGate cfg t).memReadGateCBID ≠ INVALID_EVENTID)
    ∧ (s.installReadGate cfg t).memCBInfos = s.memCBInfos := by
  obtain ⟨f1, f2, f3, f4, f5⟩ := addMemAccessCB_fields s cfg MEMORY_READ (some .gateRead)
  have hle := (addMemAccessCB_gate_le s cfg .gateRead).1
  have hm : EVENTID_VIRTCB_MASK = 2147483648 := rfl
  have hi : INVALID_EVENTID = 4294967295 := rfl
  unfold VMState.installReadGate
  split_ifs with h
  · refine ⟨f5, fun _ => ?_, fun hg => absurd h.2 hg, f1⟩
    show (s.addMemAccessCB cfg MEMORY_READ (some .gateRead)).1 ≠ INVALID_EVENTID
    omega
  · refine ⟨rfl, fun ht => ?_, fun hg => hg, rfl⟩
    intro hc
    exact h ⟨ht, hc⟩

theorem installWriteGate_gates (s : VMState) (cfg : Cfg) (t : Nat)
    (hroom : s.engine.nextId + cfg.shadowRead.length + cfg.shadowWrite.length
      < EVENTID_VIRTCB_MASK) :
    (s.installWriteGate cfg t).memReadGateCBID = s.memReadGateCBID
    ∧ (t &&& MEMORY_WRITE ≠ 0 →
        (s.installWriteGate cfg t).memWriteGateCBID ≠ INVALID_EVENTID)
    ∧ (s.memWriteGateCBID ≠ INVALID_EVENTID →
        (s.installWriteGate cfg t).memWriteGateCBID ≠ INVALID_EVENTID)
    ∧ (s.installWriteGate cfg t).memCBInfos = s.memCBInfos := by
  obtain ⟨f1, f2, f3, f4, f5⟩ := addMemAccessCB_fields s cfg MEMORY_READ_WRITE (some .gateWrite)
  have hle := (addMemAccessCB_gate_le s cfg .gateWrite).2
  have hm : EVENTID_VIRTCB_MASK = 2147483648 := rfl
  have hi : INVALID_EVENTID = 4294967295 := rfl
  unfold VMState.installWriteGate
  split_ifs with h
  · refine ⟨f4, fun _ => ?_, fun hg => absurd h.2 hg, f1⟩
    show (s.addMemAccessCB cfg MEMORY_READ_WRITE (some .gateWrite)).1 ≠ INVALID_EVENTID
    omega
  · refine ⟨rfl, fun ht => ?_, fun hg => hg, rfl⟩
    intro hc
    exact h ⟨ht, hc⟩

theorem installReadGate_id_of (s : VMState) (cfg : Cfg) {t : Nat} (ht : t ≠ MEMORY_READ) :
    s.installReadGate cfg t = s := by
  unfold VMState.installReadGate
  rw [if_neg (fun hc => ht hc.1)]

theorem installWriteGate_id_of (s : VMState) (cfg : Cfg) {t : Nat}
    (ht : t &&& MEMORY_WRITE = 0) :
    s.installWriteGate cfg t = s := by
  unfold VMState.installWriteGate
  rw [if_neg (fun hc => hc.1 ht)]

theorem memRangeGates_gates (s : VMState) (cfg : Cfg) (t : Nat)
    (hroom : s.engine.nextId + cfg.shadowRead.length + cfg.shadowWrite.length + 1
      < EVENTID_VIRTCB_MASK) :
    (t = MEMORY_READ → (s.memRangeGates cfg t).memReadGateCBID ≠ INVALID_EVENTID)
    ∧ (t &&& MEMORY_WRITE ≠ 0 →
        (s.memRangeGates cfg t).memWriteGateCBID ≠ INVALID_EVENTID)
    ∧ (s.memReadGateCBID ≠ INVALID_EVENTID →
        (s.memRangeGates cfg t).memReadGateCBID ≠ INVALID_EVENTID)
    ∧ (s.memWriteGateCBID ≠ INVALID_EVENTID →
        (s.memRangeGates cfg t).memWriteGateCBID ≠ INVALID_EVENTID) := by
  by_cases hr : t = MEMORY_READ
  · subst hr
    have hw0 : MEMORY_READ &&& MEMORY_WRITE = 0 := by decide
    obtain ⟨r1, r2, r3, r4⟩ := installReadGate_gates s cfg MEMORY_READ (by omega)
    unfold VMState.memRangeGates
    rw [installWriteGate_id_of _ cfg hw0]
    refine ⟨fun _ => r2 rfl, fun hw => absurd hw0 hw, r3, fun hg => ?_⟩
    rw [r1]
    exact hg
  · obtain ⟨w1, w2, w3, w4⟩ := installWriteGate_gates s cfg t (by omega)
    unfold VMState.memRangeGates
    rw [installReadGate_id_of s cfg hr]
    refine ⟨fun ht => absurd ht hr, w2, fun hg => ?_, w3⟩
    rw [w1]
    exact hg

theorem eraseFirstId_mem {α : Type} :
    ∀ (l : List (Nat × α)) (id : Nat) (p : Nat × α),
      p ∈ (eraseFirstId l id).2 → p ∈ l := by
  intro l
  induction l with
  | nil => intro id p h; cases h
  | cons q rest ih =>
    intro id p h
    unfold eraseFirstId at h
    by_cases hq : q.1 = id
    · rw [if_pos hq] at h
      exact List.mem_cons_of_mem q h
    · rw [if_neg hq] at h
      rcases List.mem_cons.mp h with h | h
      · exact h ▸ List.mem_cons_self q rest
      · exact List.mem_cons_of_mem q (ih id p h)

theorem gateInv_delete (s : VMState) (id : Nat) (hinv : GateInv s) :
    GateInv (s.deleteInstrumentation id).2 := by
  unfold VMState.deleteInstrumentation
  split_ifs with h
  · dsimp only
    constructor
    · intro he
      rcases he with ⟨p, hp, hpt⟩
      exact hinv.1 ⟨p, eraseFirstId_mem _ _ p hp, hpt⟩
    · intro he
      rcases he with ⟨p, hp, hpt⟩
      exact hinv.2 ⟨p, eraseFirstId_mem _ _ p hp, hpt⟩
  · dsimp only
    exact hinv

theorem gateInv_addMemRange (s : VMState) (cfg : Cfg) (a b t : Nat) (cbk : Option InstCB)
    (hinv : GateInv s)
    (hroom : s.engine.nextId + cfg.shadowRead.length + cfg.shadowWrite.length + 1
      < EVENTID_VIRTCB_MASK) :
    GateInv (s.addMemRangeCB cfg a b t cbk).2 := by
  obtain ⟨q1, q2, q3⟩ := memRangeGates_fields s cfg t
  obtain ⟨g1, g2, g3, g4⟩ := memRangeGates_gates s cfg t hroom
  by_cases h1 : ¬ a < b
  · have hs : s.addMemRangeCB cfg a b t cbk = (INVALID_EVENTID, s) := by
      unfold VMState.addMemRangeCB
      rw [if_pos h1]
    rw [hs]
    exact hinv
  by_cases h2 : t &&& MEMORY_READ_WRITE = 0
  · have hs : s.addMemRangeCB cfg a b t cbk = (INVALID_EVENTID, s) := by
      unfold VMState.addMemRangeCB
      rw [if_neg h1, if_pos h2]
    rw [hs]
    exact hinv
  cases cbk with
  | none =>
    have hs : s.addMemRangeCB cfg a b t none = (INVALID_EVENTID, s) := by
      unfold VMState.addMemRangeCB
      rw [if_neg h1, if_neg h2]
    rw [hs]
    exact hinv
  | some c =>
    by_cases h3 : ¬ (s.memRangeGates cfg t).memCBID < EVENTID_VIRTCB_MASK
    · have hs : s.addMemRangeCB cfg a b t (some c)
          = (INVALID_EVENTID,
             { s.memRangeGates cfg t with memCBID := (s.memRangeGates cfg t).memCBID + 1 }) := by
        unfold VMState.addMemRangeCB
        rw [if_neg h1, if_neg h2]
        dsimp only
        rw [if_pos h3]
      rw [hs]
      constructor
      · intro he
        show (s.memRangeGates cfg t).memReadGateCBID ≠ INVALID_EVENTID
        exact g3 (hinv.1 (by rw [← q1]; exact he))
      · intro he
        show (s.memRangeGates cfg t).memWriteGateCBID ≠ INVALID_EVENTID
        exact g4 (hinv.2 (by rw [← q1]; exact he))
    · have hs : s.addMemRangeCB cfg a b t (some c)
          = ((s.memRangeGates cfg t).memCBID ||| EVENTID_VIRTCB_MASK,
             { s.memRangeGates cfg t with
                 memCBID := (s.memRangeGates cfg t).memCBID + 1
                 memCBInfos := (s.memRangeGates cfg t).memCBInfos
                   ++ [((s.memRangeGates cfg t).memCBID, ⟨t, ⟨a, b⟩, c⟩)] }) := by
        unfold VMState.addMemRangeCB
        rw [if_neg h1, if_neg h2]
        dsimp only
        rw [if_neg h3]
      rw [hs]
      constructor
      · intro he
        show (s.memRangeGates cfg t).memReadGateCBID ≠ INVALID_EVENTID
        rcases he with ⟨p, hp, hpt⟩
        rcases List.mem_append.mp hp with hp | hp
        · exact g3 (hinv.1 ⟨p, q1 ▸ hp, hpt⟩)
        · rcases List.mem_singleton.mp hp with rfl
          exact g1 hpt
      · intro he
        show (s.memRangeGates cfg t).memWriteGateCBID ≠ INVALID_EVENTID
        rcases he with ⟨p, hp, hpt⟩
        rcases List.mem_append.mp hp with hp | hp
        · exact g4 (hinv.2 ⟨p, q1 ▸ hp, hpt⟩)
        · rcases List.mem_singleton.mp hp with rfl
          exact g2 hpt

/-- C5 (amended): after any sequence of addMemRangeCB, addMemAddrCB,
deleteInstrumentation and deleteAllInstrumentations that keeps the engine id
counter inside the 31-bit id space, one direction of the specified invariant
holds: whenever at least one registered MemCBInfo entry requires the read
(resp. write) gate, that gate exists (gates are installed lazily by the first
registration that needs them). The converse direction of the specified iff is
false in the code (see the counterexample): deleteInstrumentation removes
registry entries but never clears a gate id, so a gate survives the deletion
of the last entry requiring it; only deleteAllInstrumentations resets the
gates. -/
theorem gate_exists_if_entry_requires (cfg : Cfg) (s : VMState) (h : ReachM cfg s) :
    GateInv s := by
  induction h with
  | init =>
    constructor
    · intro he
      rcases he with ⟨p, hp, _⟩
      cases hp
    · intro he
      rcases he with ⟨p, hp, _⟩
      cases hp
  | step op s hs hroom ih =>
    cases op with
    | addRange a b t c => exact gateInv_addMemRange s cfg a b t c ih hroom
    | addAddr a t c =>
      cases c with
      | none => exact ih
      | some c =>
        exact gateInv_addMemRange s cfg a ((a + 1) % 18446744073709551616) t (some c) ih hroom
    | del id => exact gateInv_delete s id ih
    | delAll =>
      constructor
      · intro he
        rcases he with ⟨p, hp, _⟩
        cases hp
      · intro he
        rcases he with ⟨p, hp, _⟩
        cases hp

/-- Witness for C5 (amended): on the state reached by registering one
MEMORY_READ range callback on the fresh VM, the invariant holds (and its
read-side hypothesis is genuinely satisfied there). -/
theorem gate_exists_if_entry_requires_witness :
    GateInv (applyMemOp ⟨[], []⟩ (.addRange 0 8 MEMORY_READ (some (.const .CONTINUE))) initVM)
    ∧ (∃ p ∈ (applyMemOp ⟨[], []⟩
          (.addRange 0 8 MEMORY_READ (some (.const .CONTINUE))) initVM).memCBInfos,
        p.2.type = MEMORY_READ) :=
  ⟨gate_exists_if_entry_requires ⟨[], []⟩ _
      (ReachM.step (.addRange 0 8 MEMORY_READ (some (.const .CONTINUE))) initVM ReachM.init
        (by decide)),
   by decide⟩

/-- Counterexample to C5 as stated: register one MEMORY_READ range callback
on the fresh VM (which lazily installs the read gate), then delete it by its
returned id. The registry is then empty — no entry requires any gate — yet
the read gate id is still set, refuting the only-if direction of the
specified "gate exists iff at least one entry requires it". -/
theorem gate_not_torn_down_counterexample :
    (((initVM.addMemRangeCB ⟨[], []⟩ 0 8 MEMORY_READ (some (.const .CONTINUE))).2.deleteInstrumentation
        (initVM.addMemRangeCB ⟨[], []⟩ 0 8 MEMORY_READ (some (.const .CONTINUE))).1).2.memCBInfos = [])
    ∧ ((((initVM.addMemRangeCB ⟨[], []⟩ 0 8 MEMORY_READ (some (.const .CONTINUE))).2.deleteInstrumentation
        (initVM.addMemRangeCB ⟨[], []⟩ 0 8 MEMORY_READ (some (.const .CONTINUE))).1).2.memReadGateCBID)
        ≠ INVALID_EVENTID) := by
  constructor
  · decide
  · decide

theorem bbCollect_eq (b : ExecBlockM) (instID : Nat) (preInst : Bool) (stopID : Nat) :
    ∀ (n it : Nat), stopID + 1 - it = n →
      bbCollect b instID stopID preInst it
        = (List.range' it (stopID + 1 - it)).flatMap
            (fun i => analyseMemoryAccess b i (decide (¬ i = instID) || !preInst)) := by
  intro n
  induction n with
  | zero =>
    intro it hn
    unfold bbCollect
    rw [if_neg (by omega), hn]
    simp
  | succ n ih =>
    intro it hn
    unfold bbCollect
    rw [if_pos (by omega), ih (it + 1) (by omega), hn, List.range'_succ it n 1]
    rw [show stopID + 1 - (it + 1) = n by omega]
    simp

/-- C7: when the current instruction lies inside the current sequence,
`getBBMemoryAccess` returns exactly the recorded entries of the instructions
from the sequence start up to and including the current instruction, in
increasing instruction id; the current instruction contributes its entries
under the pre/post-instruction flag (only its completed accesses at a
POSTINST point, only the pre-instruction ones at a PREINST point) while every
earlier instruction contributes its full entries, and no instruction after
the current one contributes anything; the query leaves the state unchanged. -/
theorem getBBMemoryAccess_exact (s : VMState) (b : ExecBlockM)
    (hb : s.curExecBlock = some b)
    (h1 : b.seqStart b.curSeqID ≤ b.curInstID)
    (h2 : b.curInstID ≤ b.seqEnd b.curSeqID) :
    s.getBBMemoryAccess
      = ((List.range' (b.seqStart b.curSeqID) (b.curInstID + 1 - b.seqStart b.curSeqID)).flatMap
          (fun i => analyseMemoryAccess b i
            (if i = b.curInstID then !s.enginePreInst else true)),
         s) := by
  unfold VMState.getBBMemoryAccess
  rw [hb]
  dsimp only
  rw [Nat.min_eq_right h2]
  rw [bbCollect_eq b b.curInstID s.enginePreInst b.curInstID
    (b.curInstID + 1 - b.seqStart b.curSeqID) (b.seqStart b.curSeqID) rfl]
  have hfn : (fun i => analyseMemoryAccess b i (decide (¬ i = b.curInstID) || !s.enginePreInst))
      = (fun i => analyseMemoryAccess b i (if i = b.curInstID then !s.enginePreInst else true)) := by
    funext i
    by_cases hi : i = b.curInstID
    · simp [hi]
    · simp [hi]
  rw [hfn]

/-- Witness for C7 at a concrete block: sequence 2..5, current instruction 4
at a POSTINST point; the result is the concatenation of the full entries of
instructions 2 and 3 and the completed entries of instruction 4, instruction
5 excluded. -/
theorem getBBMemoryAccess_exact_witness :
    ({ engine := ⟨[], [], 0⟩
       curExecBlock := some
         { curSeqID := 0
           curInstID := 4
           seqStart := fun _ => 2
           seqEnd := fun _ => 5
           access := fun i full => [⟨MEMORY_READ, 100 * i, if full then 8 else 4⟩]
           analysisOf := fun _ _ => none }
       enginePreInst := false
       memoryLoggingLevel := 0
       memCBInfos := []
       memCBID := 0
       memReadGateCBID := INVALID_EVENTID
       memWriteGateCBID := INVALID_EVENTID
       instrCBInfos := [] } : VMState).getBBMemoryAccess.1
      = [⟨MEMORY_READ, 200, 8⟩, ⟨MEMORY_READ, 300, 8⟩, ⟨MEMORY_READ, 400, 8⟩] := by
  rw [congrArg Prod.fst (getBBMemoryAccess_exact _
    { curSeqID := 0
      curInstID := 4
      seqStart := fun _ => 2
      seqEnd := fun _ => 5
      access := fun i full => [⟨MEMORY_READ, 100 * i, if full then 8 else 4⟩]
      analysisOf := fun _ _ => none }
    rfl (by decide) (by decide))]
  rfl

/-- C10: with no ExecBlock currently executing (the engine's current
ExecBlock is null, i.e. the query is made outside any callback),
getInstMemoryAccess and getBBMemoryAccess return the empty vector and
getInstAnalysis returns the null pointer, each leaving the VM state
unchanged. -/
theorem queries_without_execblock (s : VMState) (ty : Nat)
    (h : s.curExecBlock = none) :
    s.getInstMemoryAccess = ([], s)
    ∧ s.getBBMemoryAccess = ([], s)
    ∧ s.getInstAnalysis ty = (none, s) := by
  refine ⟨?_, ?_, ?_⟩
  · unfold VMState.getInstMemoryAccess
    rw [h]
  · unfold VMState.getBBMemoryAccess
    rw [h]
  · unfold VMState.getInstAnalysis
    rw [h]

/-- Witness for C10 on the fresh VM, whose current ExecBlock is null. -/
theorem queries_without_execblock_witness :
    initVM.getInstMemoryAccess = ([], initVM)
    ∧ initVM.getBBMemoryAccess = ([], initVM)
    ∧ initVM.getInstAnalysis 0 = (none, initVM) :=
  queries_without_execblock initVM 0 rfl

/-- C8: `run(start, stop)` first registers a PREINST rule at exactly the
address `stop` whose callback (stopCallback) returns STOP — this rule is in
the engine's table during the engine run — and removes that rule after the
engine's run returns, so the registered instrumentations (engine rules, VM
event callbacks, memory range callbacks and C-callback wrappers) are the
same before and after the call, whatever the dispatcher did and returned. -/
theorem run_frame_stop_rule (er : VMState → Bool × (Option ExecBlockM × Bool))
    (start stop : Nat) (s : VMState) (hwf : WF s) :
    ((s.addCodeAddrCB stop InstPosition.PREINST (some (.const stopCallback))).2.engine.rules
      = s.engine.rules
        ++ [(s.engine.nextId,
             .basic ⟨.addressIs stop, .const stopCallback, InstPosition.PREINST, true⟩)])
    ∧ stopCallback = VMAction.STOP
    ∧ (VMState.run er start stop s).2.engine.rules = s.engine.rules
    ∧ (VMState.run er start stop s).2.engine.events = s.engine.events
    ∧ (VMState.run er start stop s).2.memCBInfos = s.memCBInfos
    ∧ (VMState.run er start stop s).2.instrCBInfos = s.instrCBInfos := by
  have hwfmod : WF { s with
      curExecBlock := (er (s.addCodeAddrCB stop InstPosition.PREINST
        (some (.const stopCallback))).2).2.1
      enginePreInst := (er (s.addCodeAddrCB stop InstPosition.PREINST
        (some (.const stopCallback))).2).2.2 } :=
    ⟨hwf.rulesBelow, hwf.eventsBelow, hwf.instrBelow, hwf.memBelow, hwf.nextLt⟩
  have hnm : s.engine.nextId ∉ s.instrCBInfos := instr_not_mem s hwf
  have hd := delete_fresh_rule_aux
    { s with
      curExecBlock := (er (s.addCodeAddrCB stop InstPosition.PREINST
        (some (.const stopCallback))).2).2.1
      enginePreInst := (er (s.addCodeAddrCB stop InstPosition.PREINST
        (some (.const stopCallback))).2).2.2 }
    hwfmod
    (.basic ⟨.addressIs stop, .const stopCallback, InstPosition.PREINST, true⟩)
    s.instrCBInfos (filter_ne_fresh _ hnm)
  have hrun : (VMState.run er start stop s).2
      = { s with
          curExecBlock := (er (s.addCodeAddrCB stop InstPosition.PREINST
            (some (.const stopCallback))).2).2.1
          enginePreInst := (er (s.addCodeAddrCB stop InstPosition.PREINST
            (some (.const stopCallback))).2).2.2
          engine := ⟨s.engine.rules, s.engine.events, s.engine.nextId + 1⟩ } := by
    unfold VMState.run
    dsimp only
    exact congrArg Prod.snd hd
  refine ⟨rfl, rfl, ?_, ?_, ?_, ?_⟩ <;> rw [hrun]

/-- Witness for C8 on the fresh VM with a dispatcher model that returns true
and clears the execution point. -/
theorem run_frame_stop_rule_witness :
    ((initVM.addCodeAddrCB 1000 InstPosition.PREINST
        (some (.const stopCallback))).2.engine.rules
      = initVM.engine.rules
        ++ [(initVM.engine.nextId,
             .basic ⟨.addressIs 1000, .const stopCallback, InstPosition.PREINST, true⟩)])
    ∧ stopCallback = VMAction.STOP
    ∧ (VMState.run (fun _ => (true, (none, false))) 100 1000 initVM).2.engine.rules
        = initVM.engine.rules
    ∧ (VMState.run (fun _ => (true, (none, false))) 100 1000 initVM).2.engine.events
        = initVM.engine.events
    ∧ (VMState.run (fun _ => (true, (none, false))) 100 1000 initVM).2.memCBInfos
        = initVM.memCBInfos
    ∧ (VMState.run (fun _ => (true, (none, false))) 100 1000 initVM).2.instrCBInfos
        = initVM.instrCBInfos :=
  run_frame_stop_rule (fun _ => (true, (none, false))) 100 1000 initVM WF_init

/-- C9: provided the encoded patch occupies exactly the baked-in byte count
(22 on x86, 29 on x86_64), the BreakToHost sequence (i) first computes into
the temporary register the host address immediately following the patch,
(ii) stores that address into the Context selector, (iii) then restores the
temporary register from its Context slot, leaving every other guest register
and every Context slot untouched, and (iv) ends with the unconditional jump
to the block epilogue. -/
theorem getBreakToHost_spec (is86 : Bool) (temp pc : Nat)
    (size : RelocatableInst → Nat) (m : MachineState)
    (hsz : ((getBreakToHost is86 temp).map size).sum = if is86 then 22 else 29) :
    ((execRelocs size pc m (getBreakToHost is86 temp)).selector
      = pc + ((getBreakToHost is86 temp).map size).sum)
    ∧ ((execRelocs size pc m ((getBreakToHost is86 temp).take 1)).regs temp
      = pc + ((getBreakToHost is86 temp).map size).sum)
    ∧ ((execRelocs size pc m (getBreakToHost is86 temp)).regs temp = m.slots temp)
    ∧ (∀ r, r ≠ temp → (execRelocs size pc m (getBreakToHost is86 temp)).regs r = m.regs r)
    ∧ ((execRelocs size pc m (getBreakToHost is86 temp)).slots = m.slots)
    ∧ ((getBreakToHost is86 temp).getLast? = some .jmpEpilogue)
    ∧ ((execRelocs size pc m (getBreakToHost is86 temp)).jumpedToEpilogue = true) := by
  cases is86 with
  | false =>
    rw [hsz]
    refine ⟨?_, ?_, ?_, ?_, ?_, ?_, ?_⟩
    · simp [getBreakToHost, execRelocs, stepReloc, mov64ri, updFn]
    · simp [getBreakToHost, execRelocs, stepReloc, mov64ri, updFn]
    · simp [getBreakToHost, execRelocs, stepReloc, mov64ri, updFn]
    · intro r hr
      simp [getBreakToHost, execRelocs, stepReloc, mov64ri, updFn, hr]
    · simp [getBreakToHost, execRelocs, stepReloc, mov64ri, updFn]
    · rfl
    · rfl
  | true =>
    rw [hsz]
    refine ⟨?_, ?_, ?_, ?_, ?_, ?_, ?_⟩
    · simp [getBreakToHost, execRelocs, stepReloc, mov32ri, updFn]
    · simp [getBreakToHost, execRelocs, stepReloc, mov32ri, updFn]
    · simp [getBreakToHost, execRelocs, stepReloc, mov32ri, updFn]
    · intro r hr
      simp [getBreakToHost, execRelocs, stepReloc, mov32ri, updFn, hr]
    · simp [getBreakToHost, execRelocs, stepReloc, mov32ri, updFn]
    · rfl
    · rfl

/-- Witness for C9 on x86_64: instruction sizes 10 + 7 + 7 + 5 = 29 bytes
(the 64-bit move-immediate, the two Context moves and the epilogue jump),
patch placed at host address 4096, temp register 3. -/
theorem getBreakToHost_spec_witness :
    let size : RelocatableInst → Nat := fun i =>
      match i with
      | .hostPCRel _ _ _ => 10
      | .saveReg _ _ => 7
      | .loadReg _ _ => 7
      | .jmpEpilogue => 5
    let m : MachineState := ⟨fun _ => 0, fun r => 1000 + r, 0, false⟩
    ((execRelocs size 4096 m (getBreakToHost false 3)).selector
      = 4096 + ((getBreakToHost false 3).map size).sum)
    ∧ ((execRelocs size 4096 m (getBreakToHost false 3)).regs 3 = m.slots 3) := by
  intro size m
  have h := getBreakToHost_spec false 3 4096 size m (by rfl)
  exact ⟨h.1, h.2.2.1⟩

end QBDIModel

